import Mathlib

/-!
Shallow embedding of the state-reconciliation (diff) engine of the
ns1-ansible-modules repository.

The embedded functions follow `library/ns1_zone.py` (the `NS1Zone` methods
`sanitize_params`, `diff_params`, `get_changed_params`, `diff_in_secondaries`,
`convert_secondaries_to_dict`, `update_on_change`) and `library/ns1_tsig.py`
(whose `sanitize_params`, `diff_params`, `get_changed_params`,
`diff_in_secondaries` and `convert_secondaries_to_dict` are textually
identical, sharing the same `SET_PARAMS` and `SANITIZED_PARAMS` constants),
plus `sanitize_record` / `remove_ids` from `library/ns1_record.py`.

Python values are modelled by the inductive type `Value` (None, bool, int,
str, list, tuple, dict).  A Python dict is an insertion-ordered association
list with pairwise distinct keys; iteration follows the list order, equality
is order-insensitive.  Python exceptions (TypeError, KeyError, IndexError,
AttributeError) and `module.fail_json` are modelled with `Except PyErr`.
-/

namespace NS1Spec

/-- A Python value as it appears in the module parameter trees: `None`,
booleans, integers, strings, lists, tuples and (insertion-ordered) dicts
with arbitrary hashable keys. -/
inductive Value where
  | null : Value
  | bool (b : Bool) : Value
  | int (n : Int) : Value
  | str (s : String) : Value
  | list (xs : List Value) : Value
  | tuple (xs : List Value) : Value
  | dict (fields : List (Value × Value)) : Value

/-- Python run-time failures surfaced by the differ: raised exceptions and
`module.fail_json` calls. -/
inductive PyErr where
  | typeError (msg : String) : PyErr
  | keyError (k : Value) : PyErr
  | indexError : PyErr
  | attributeError (msg : String) : PyErr
  | failJson (msg : String) : PyErr

mutual

/-- Whether a value is hashable in Python (usable as a dict key or set
element): scalars are, tuples of hashables are, lists and dicts are not. -/
def hashable : Value → Bool
  | .null => true
  | .bool _ => true
  | .int _ => true
  | .str _ => true
  | .tuple xs => hashableList xs
  | .list _ => false
  | .dict _ => false

def hashableList : List Value → Bool
  | [] => true
  | x :: xs => hashable x && hashableList xs

end

mutual

/-- Python `==` on `Value`: structural on scalars, pointwise on lists and
tuples, order-insensitive with equal cardinality on dicts.  (The Python
numeric coercions `True == 1` etc. are not modelled; the modules never
compare a bool against an int.) -/
def pyEq : Value → Value → Bool
  | .null, .null => true
  | .bool a, .bool b => a == b
  | .int a, .int b => a == b
  | .str a, .str b => a == b
  | .list xs, .list ys => pyEqList xs ys
  | .tuple xs, .tuple ys => pyEqList xs ys
  | .dict xs, .dict ys => (xs.length == ys.length) && pyEqFields xs ys
  | _, _ => false

def pyEqList : List Value → List Value → Bool
  | [], [] => true
  | x :: xs, y :: ys => pyEq x y && pyEqList xs ys
  | _, _ => false

def pyEqFields : List (Value × Value) → List (Value × Value) → Bool
  | [], _ => true
  | (k, v) :: rest, ys => pyFindEq k v ys && pyEqFields rest ys

def pyFindEq : Value → Value → List (Value × Value) → Bool
  | _, _, [] => false
  | k, v, (k2, v2) :: rest => if pyEq k k2 then pyEq v v2 else pyFindEq k v rest

end

/-- Python `x is None`. -/
def isNull : Value → Bool
  | .null => true
  | _ => false

/-- Python substring test, used by `key in s` when `s` is a string. -/
def strContains (s sub : String) : Bool :=
  decide (sub.data <:+: s.data)

/-- Python membership `key in container`.  Dicts test key equality, lists and
tuples test element equality, strings test substring (raising a TypeError on
a non-string key); other values are not iterable and raise a TypeError. -/
def pyContains (container key : Value) : Except PyErr Bool :=
  match container with
  | .dict fs => .ok (fs.any (fun p => pyEq p.1 key))
  | .list xs => .ok (xs.any (fun x => pyEq key x))
  | .tuple xs => .ok (xs.any (fun x => pyEq key x))
  | .str s =>
      match key with
      | .str sub => .ok (strContains s sub)
      | _ => .error (.typeError "in string requires string as left operand")
  | _ => .error (.typeError "argument is not iterable")

/-- Lookup in a Python dict (association list): the value of the first entry
whose key compares `==` to the requested key. -/
def pyLookup (fs : List (Value × Value)) (k : Value) : Option Value :=
  match fs with
  | [] => none
  | (k2, v) :: rest => if pyEq k2 k then some v else pyLookup rest k

/-- Python sequence indexing with negative-index wrap-around. -/
def pyIndexList (xs : List Value) (i : Int) : Except PyErr Value :=
  let j : Int := if i < 0 then i + xs.length else i
  if j < 0 then .error .indexError
  else
    match xs.get? j.toNat with
    | some v => .ok v
    | none => .error .indexError

/-- Python subscription `container[key]`: dict lookup (KeyError when the key
is missing), integer indexing on lists, tuples and strings (bools index as
0/1, as in Python), TypeError otherwise. -/
def pyGetItem (container key : Value) : Except PyErr Value :=
  match container with
  | .dict fs =>
      match pyLookup fs key with
      | some v => .ok v
      | none => .error (.keyError key)
  | .list xs =>
      match key with
      | .int i => pyIndexList xs i
      | .bool b => pyIndexList xs (if b then 1 else 0)
      | _ => .error (.typeError "list indices must be integers")
  | .tuple xs =>
      match key with
      | .int i => pyIndexList xs i
      | .bool b => pyIndexList xs (if b then 1 else 0)
      | _ => .error (.typeError "tuple indices must be integers")
  | .str s =>
      match key with
      | .int i => (pyIndexList (s.data.map (fun c => .str (String.mk [c]))) i)
      | .bool b =>
          pyIndexList (s.data.map (fun c => .str (String.mk [c])))
            (if b then 1 else 0)
      | _ => .error (.typeError "string indices must be integers")
  | _ => .error (.typeError "object is not subscriptable")

/-- Python iteration over a container: lists and tuples yield their elements,
strings their characters, dicts their keys; anything else raises TypeError. -/
def pyIter : Value → Except PyErr (List Value)
  | .list xs => .ok xs
  | .tuple xs => .ok xs
  | .str s => .ok (s.data.map (fun c => .str (String.mk [c])))
  | .dict fs => .ok (fs.map (fun p => p.1))
  | _ => .error (.typeError "argument is not iterable")

/-- Python `len()`. -/
def pyLen : Value → Except PyErr Nat
  | .list xs => .ok xs.length
  | .tuple xs => .ok xs.length
  | .str s => .ok s.length
  | .dict fs => .ok fs.length
  | _ => .error (.typeError "object has no len")

/-- Python `set(v)`: the element list of an iterable whose elements are all
hashable (TypeError otherwise).  Only the elements matter: set equality below
is membership equality, so duplicates need not be removed. -/
def pySetElems (v : Value) : Except PyErr (List Value) := do
  let xs ← pyIter v
  if xs.all hashable then .ok xs else .error (.typeError "unhashable type")

/-- Equality of the Python sets built from two element lists: mutual
membership under `==`. -/
def pySetEq (xs ys : List Value) : Bool :=
  xs.all (fun x => ys.any (fun y => pyEq x y)) &&
    ys.all (fun y => xs.any (fun x => pyEq x y))

/-- Overwrite-or-append step of a Python dict write: replace the value of
the entry whose key compares equal (keeping its position and key object),
append otherwise.  Besides serving dict item assignment below, this is how
the functional model re-seats a sub-object the source mutates in place
(where Python performs no assignment and hashes no key). -/
def dictStore (d : List (Value × Value)) (k v : Value) :
    List (Value × Value) :=
  match d with
  | [] => [(k, v)]
  | (k2, v2) :: rest =>
      if pyEq k2 k then (k2, v) :: rest else (k2, v2) :: dictStore rest k v

/-- Python dict item assignment `d[k] = v` (also the insertion step of a
dict comprehension): hashing the key raises a TypeError when the key is
unhashable; otherwise overwrite in place or append. -/
def dictSetItem (d : List (Value × Value)) (k v : Value) :
    Except PyErr (List (Value × Value)) :=
  if hashable k then .ok (dictStore d k v)
  else .error (.typeError "unhashable type")

/-- Python `d.pop(k, None)`: drop the entry whose key equals `k`, if any. -/
def dictPop (d : List (Value × Value)) (k : Value) : List (Value × Value) :=
  d.filter (fun p => !(pyEq p.1 k))

/-- Python `d.get(k)` on a dict value: the stored value or `None`; calling
`.get` on a non-dict raises AttributeError. -/
def pyDictGet (v k : Value) : Except PyErr Value :=
  match v with
  | .dict fs => .ok ((pyLookup fs k).getD .null)
  | _ => .error (.attributeError "object has no attribute get")

/-- Constant `SET_PARAMS` from `ns1_zone.py` (identical in `ns1_tsig.py`): params
treated as sets during diff. -/
def SET_PARAMS : List String := ["other_ips", "other_ports", "networks"]

/-- Constant `SANITIZED_PARAMS` from `ns1_zone.py` (identical in `ns1_tsig.py`):
params removed before calls to the API. -/
def SANITIZED_PARAMS : List String := ["state", "name"]

/-- Python `param in SET_PARAMS`: list membership under `==`; only string
keys can match. -/
def isSetParam (param : Value) : Bool :=
  match param with
  | .str s => SET_PARAMS.contains s
  | _ => false

/-- The inner `filter_empty_params` of `NS1Zone.sanitize_params` /
`NS1Tsig.sanitize_params`: walking the dict in iteration order, a dict value
is replaced by its recursive filtering and kept only when the result is
non-empty; a `None` value is dropped; every other value is kept as is. -/
def filter_empty_params : List (Value × Value) → List (Value × Value)
  | [] => []
  | (key, val) :: rest =>
      match val with
      | .dict sub =>
          let nested := filter_empty_params sub
          if nested.isEmpty then filter_empty_params rest
          else (key, .dict nested) :: filter_empty_params rest
      | .null => filter_empty_params rest
      | _ => (key, val) :: filter_empty_params rest

/-- Method `NS1Zone.sanitize_params` / `NS1Tsig.sanitize_params`: filter empty
params recursively, then pop each name in `SANITIZED_PARAMS` from the top
level only. -/
def sanitize_params (params : List (Value × Value)) : List (Value × Value) :=
  (filter_empty_params params).filter
    (fun p => !(SANITIZED_PARAMS.any (fun s => pyEq p.1 (.str s))))

/-- Method `NS1Zone.diff_params` / `NS1Tsig.diff_params`: deep comparison of two
parameter dicts, returning the values from `want` that differ from `hav`.
`hav` is an arbitrary value because the recursive call passes `have[param]`
unchecked; `want` is iterated as a dict.  Mirrors the source loop: a param
missing from `hav` is recorded wholesale; a dict value is diffed recursively
and recorded only when the sub-diff is non-empty; a list value whose param is
in `SET_PARAMS` is compared as a set; anything else is compared with `!=`. -/
def diff_params (hav : Value) : List (Value × Value) →
    Except PyErr (List (Value × Value))
  | [] => .ok []
  | (param, wanted_val) :: rest => do
      let c ← pyContains hav param
      if !c then
        let d ← diff_params hav rest
        .ok ((param, wanted_val) :: d)
      else
        match wanted_val with
        | .dict sub => do
            let hv ← pyGetItem hav param
            let subparam_diff ← diff_params hv sub
            let d ← diff_params hav rest
            .ok (if subparam_diff.isEmpty then d
                 else (param, .dict subparam_diff) :: d)
        | .list xs =>
            if isSetParam param then do
              let hv ← pyGetItem hav param
              let hset ← pySetElems hv
              let wset ← pySetElems (.list xs)
              let d ← diff_params hav rest
              .ok (if pySetEq hset wset then d else (param, wanted_val) :: d)
            else do
              let hv ← pyGetItem hav param
              let d ← diff_params hav rest
              .ok (if pyEq hv wanted_val then d else (param, wanted_val) :: d)
        | _ => do
            let hv ← pyGetItem hav param
            let d ← diff_params hav rest
            .ok (if pyEq hv wanted_val then d else (param, wanted_val) :: d)

/-- Python `format(KeyError(k))`: the `repr` of the missing key. -/
def pyKeyStr : Value → String
  | .str s => String.mk [Char.ofNat 39] ++ s ++ String.mk [Char.ofNat 39]
  | .int n => toString n
  | .bool b => if b then "True" else "False"
  | .null => "None"
  | _ => "<key>"

/-- The dict comprehension inside `convert_secondaries_to_dict`, built in
iteration order: `{(s["ip"], s["port"]): s for s in secondaries}`. -/
def convert_secondaries_loop (acc : List (Value × Value)) :
    List Value → Except PyErr (List (Value × Value))
  | [] => .ok acc
  | s :: rest => do
      let ip ← pyGetItem s (.str "ip")
      let port ← pyGetItem s (.str "port")
      let acc2 ← dictSetItem acc (.tuple [ip, port]) s
      convert_secondaries_loop acc2 rest

/-- Method `NS1Zone.convert_secondaries_to_dict` / the `NS1Tsig` version: key each
secondary by its `(ip, port)` pair; a `KeyError` (missing `ip` or `port`)
is caught and turned into `module.fail_json` with a message naming the
missing field; other exceptions propagate. -/
def convert_secondaries_to_dict (secondaries : Value) :
    Except PyErr (List (Value × Value)) := do
  let ss ← pyIter secondaries
  match convert_secondaries_loop [] ss with
  | .error (.keyError k) =>
      .error (.failJson ("missing field in secondary definition: "
                          ++ pyKeyStr k))
  | r => r

/-- Method `NS1Zone.diff_in_secondaries` / `NS1Tsig.diff_in_secondaries`: deep
comparison of two secondaries lists ignoring order.  `None` desired list
means no change; `None` current list against a present desired list is a
change; different lengths are a change; otherwise the lists are keyed by
`(ip, port)` and compared with `diff_params`. -/
def diff_in_secondaries (have_secondaries want_secondaries : Value) :
    Except PyErr Bool :=
  if isNull want_secondaries then .ok false
  else if isNull have_secondaries then .ok true
  else do
    let lw ← pyLen want_secondaries
    let lh ← pyLen have_secondaries
    if lw != lh then .ok true
    else do
      let havd ← convert_secondaries_to_dict have_secondaries
      let wand ← convert_secondaries_to_dict want_secondaries
      let d ← diff_params (.dict havd) wand
      .ok (!d.isEmpty)

/-- Method `NS1Zone.get_changed_params` / `NS1Tsig.get_changed_params`, restricted
to the diff it computes (the zone variant additionally renders a
before/after pair through an external yaml library when Ansible diff mode is
on; that presentation tuple carries no decision and is not modelled).  After
`diff_params`, when both the current state and the diff contain `primary`,
the secondaries lists are deep-compared; if they do not differ, `secondaries`
is popped from the `primary` sub-diff, and `primary` itself is popped when
nothing else remains in it. -/
def get_changed_params (hav want : List (Value × Value)) :
    Except PyErr (List (Value × Value)) := do
  let diff ← diff_params (.dict hav) want
  if (hav.any (fun p => pyEq p.1 (.str "primary")))
      && (diff.any (fun p => pyEq p.1 (.str "primary"))) then do
    let havPrimary ← pyGetItem (.dict hav) (.str "primary")
    let have_secondaries ← pyDictGet havPrimary (.str "secondaries")
    let wantPrimary ← pyGetItem (.dict want) (.str "primary")
    let want_secondaries ← pyDictGet wantPrimary (.str "secondaries")
    let ds ← diff_in_secondaries have_secondaries want_secondaries
    if !ds then do
      let diffPrimary ← pyGetItem (.dict diff) (.str "primary")
      match diffPrimary with
      | .dict dfs =>
          let dfs2 := dictPop dfs (.str "secondaries")
          let diff2 := dictStore diff (.str "primary") (.dict dfs2)
          .ok (if dfs2.isEmpty then dictPop diff2 (.str "primary") else diff2)
      | .list _ => .error (.typeError "pop index must be an integer")
      | _ => .error (.attributeError "object has no attribute pop")
    else .ok diff
  else .ok diff

/-- Outcome of `update_on_change`: the reported `changed` flag and whether
the network write (the `update` call that reaches the NS1 API) was issued. -/
structure UpdateOutcome where
  changed : Bool
  updateCalled : Bool

/-- Method `NS1Zone.update_on_change`: compute the diff between the existing zone
data and the desired state; update only when the diff is non-empty and the
module is not in check mode. -/
def update_on_change (zoneData want : List (Value × Value))
    (checkMode : Bool) : Except PyErr UpdateOutcome := do
  let diff ← get_changed_params zoneData want
  if !diff.isEmpty && !checkMode then .ok ⟨true, true⟩
  else if !diff.isEmpty && checkMode then .ok ⟨true, false⟩
  else .ok ⟨false, false⟩

/-- Method `NS1Tsig.update_on_change`: update whenever the computed diff is
non-empty; the `update` method itself is wrapped in the
`skip_in_check_mode` decorator, so the write reaches the API only outside
check mode. -/
def tsig_update_on_change (tsigData want : List (Value × Value))
    (checkMode : Bool) : Except PyErr UpdateOutcome := do
  let changed_params ← get_changed_params tsigData want
  if !changed_params.isEmpty then .ok ⟨true, !checkMode⟩
  else .ok ⟨false, false⟩

mutual

/-- The inner `remove_ids` of `NS1Record.sanitize_record`: delete the `id`
key of every dict reached, recursing into dict values and list elements
(scalars and tuples are left untouched, as the source only recurses into
`dict` and `list` instances). -/
def remove_ids : Value → Value
  | .dict fs => .dict (remove_ids_fields fs)
  | .list xs => .list (remove_ids_list xs)
  | v => v

def remove_ids_fields : List (Value × Value) → List (Value × Value)
  | [] => []
  | (k, v) :: rest =>
      if pyEq k (.str "id") then remove_ids_fields rest
      else (k, remove_ids v) :: remove_ids_fields rest

def remove_ids_list : List Value → List Value
  | [] => []
  | x :: xs => remove_ids x :: remove_ids_list xs

end

/-- Python `answer.pop("feeds", None)` on one element of the `answers`
list: dicts drop the entry, lists reject a string index, other values have
no `pop` attribute. -/
def popFeeds : Value → Except PyErr Value
  | .dict fs => .ok (.dict (dictPop fs (.str "feeds")))
  | .list _ => .error (.typeError "pop index must be an integer")
  | _ => .error (.attributeError "object has no attribute pop")

/-- Method `NS1Record.sanitize_record`: strip `id` keys recursively with
`remove_ids`, then pop `feeds` from each entry of `record["answers"]`.  The
in-place mutation of the answer dicts is modelled by rebuilding the answers
container. -/
def sanitize_record (record : Value) : Except PyErr Value := do
  let r := remove_ids record
  let answers ← pyGetItem r (.str "answers")
  let items ← pyIter answers
  let items2 ← items.mapM popFeeds
  let newAnswers : Value :=
    match answers with
    | .list _ => .list items2
    | .tuple _ => .tuple items2
    | other => other
  match r with
  | .dict fs => .ok (.dict (dictStore fs (.str "answers") newAnswers))
  | _ => .ok r

/-- Pairwise distinctness (under `==`) of the keys of a dict: what any real
Python dict guarantees. -/
def keysDistinct : List (Value × Value) → Bool
  | [] => true
  | (k, _) :: rest => rest.all (fun p => !(pyEq k p.1)) && keysDistinct rest

/-- What any real Python dict guarantees of its keys: hashable and pairwise
distinct. -/
def keysOk (fs : List (Value × Value)) : Bool :=
  fs.all (fun p => hashable p.1) && keysDistinct fs

/-- The claim C1 well-formedness condition on a set-field entry: when the key
is in `SET_PARAMS` and the value is a list, its elements are hashable
scalars, so Python `set()` is defined on it. -/
def setFieldOk (k v : Value) : Bool :=
  if isSetParam k then
    match v with
    | .list xs => xs.all hashable
    | _ => true
  else true

mutual

/-- A well-formed state tree: every dict node has Python-dict keys
(hashable, pairwise distinct) and every set-field list holds hashable
elements, recursively through dicts, lists and tuples. -/
def wfValue : Value → Bool
  | .dict fs => keysOk fs && wfFields fs
  | .list xs => wfList xs
  | .tuple xs => wfList xs
  | _ => true

def wfFields : List (Value × Value) → Bool
  | [] => true
  | (k, v) :: rest => wfValue v && setFieldOk k v && wfFields rest

def wfList : List Value → Bool
  | [] => true
  | x :: xs => wfValue x && wfList xs

end

/-- A well-formed entry list (a dict body) together with its key
obligations. -/
def wfState (fs : List (Value × Value)) : Bool :=
  wfValue (.dict fs)

/-- Sufficient condition for `diff_params` to record nothing for the entry
`(k, v)` of `want` when the current state holds `v0` at `k`: set-fields with
equal element sets, nested dicts all of whose entries again match, and
everything else `==`-equal.  The side conditions on the last constructor
keep the three cases aligned with the branches of the source loop. -/
inductive MatchesAt : Value → Value → Value → Prop where
  | setF (k : Value) (ys xs : List Value) :
      isSetParam k = true → ys.all hashable = true → xs.all hashable = true →
      pySetEq ys xs = true → MatchesAt k (.list ys) (.list xs)
  | dictF (k : Value) (sub s : List (Value × Value)) :
      keysOk sub = true →
      (∀ p ∈ s, (pyLookup sub p.1).isSome = true) →
      (∀ p ∈ s, MatchesAt p.1 ((pyLookup sub p.1).getD .null) p.2) →
      MatchesAt k (.dict sub) (.dict s)
  | eqF (k v0 v : Value) :
      (∀ s, v ≠ .dict s) → (isSetParam k = true → ∀ xs, v ≠ .list xs) →
      pyEq v0 v = true → MatchesAt k v0 v

/-- A representative well-formed zone state tree, with scalar, null,
set-list and nested-dict fields. -/
def exampleZoneData : List (Value × Value) :=
  [(.str "name", .str "zone.example"),
   (.str "nx_ttl", .int 3600),
   (.str "networks", .list [.int 1, .int 2]),
   (.str "link", .null),
   (.str "secondary", .dict
      [(.str "enabled", .bool true),
       (.str "tsig", .dict [(.str "enabled", .null)])]),
   (.str "primary", .dict
      [(.str "enabled", .bool false),
       (.str "secondaries", .list
          [.dict [(.str "ip", .str "1.1.1.1"), (.str "port", .int 53)]])])]

/-- A Python value on which `in` raises TypeError: not a dict, list, tuple
or string. -/
def nonIterable : Value → Bool
  | .null => true
  | .bool _ => true
  | .int _ => true
  | _ => false

/-- The `(ip, port)` pair of a well-shaped secondary descriptor. -/
def secPair (s : Value) : Option (Value × Value) :=
  match s with
  | .dict fs =>
      match pyLookup fs (.str "ip"), pyLookup fs (.str "port") with
      | some ip, some port => some (ip, port)
      | _, _ => none
  | _ => none

/-- The key `(s["ip"], s["port"])` under which
`convert_secondaries_to_dict` stores a descriptor. -/
def secKey (s : Value) : Value :=
  match secPair s with
  | some (ip, port) => .tuple [ip, port]
  | none => .null

/-- Shape hypothesis on a secondaries list: every descriptor is a dict
carrying hashable `ip` and `port` values and is itself well-formed. -/
def DescrOk (ss : List Value) : Prop :=
  ∀ s ∈ ss, ∃ fs ip port, s = Value.dict fs
    ∧ pyLookup fs (.str "ip") = some ip
    ∧ pyLookup fs (.str "port") = some port
    ∧ hashable ip = true ∧ hashable port = true ∧ wfValue s = true

/-- Hypothesis that the `ip` and `port` values present in each dict
descriptor are hashable, so that the key tuple Python builds from them can
be hashed during dict insertion. -/
def PresentKeysHashable (ss : List Value) : Prop :=
  ∀ s ∈ ss, ∀ fs, s = Value.dict fs →
    (∀ ip, pyLookup fs (.str "ip") = some ip → hashable ip = true)
    ∧ (∀ port, pyLookup fs (.str "port") = some port → hashable port = true)

/-- First example secondary descriptor. -/
def secondaryA : Value :=
  .dict [(.str "ip", .str "1.1.1.1"), (.str "port", .int 1)]

/-- Second example secondary descriptor. -/
def secondaryB : Value :=
  .dict [(.str "ip", .str "2.2.2.2"), (.str "port", .int 2)]

/-- Whether every value of a dict body is recursively empty: null, or a
dict all of whose values are again recursively empty (in particular the
empty dict). -/
def allEmptyB : List (Value × Value) → Bool
  | [] => true
  | (_, v) :: rest =>
      (match v with
       | .null => true
       | .dict sub => allEmptyB sub
       | _ => false) && allEmptyB rest

/-- No dict entry reachable through dict nesting carries a null value. -/
def noNullEntries : List (Value × Value) → Bool
  | [] => true
  | (_, v) :: rest =>
      (match v with
       | .null => false
       | .dict sub => noNullEntries sub
       | _ => true) && noNullEntries rest

mutual

/-- No dict node reachable through dict and list nesting (the levels
`remove_ids` visits) carries an `id` key. -/
def noIdKeys : Value → Bool
  | .dict fs => noIdKeysFields fs
  | .list xs => noIdKeysList xs
  | _ => true

def noIdKeysFields : List (Value × Value) → Bool
  | [] => true
  | (k, v) :: rest =>
      !(pyEq k (.str "id")) && noIdKeys v && noIdKeysFields rest

def noIdKeysList : List Value → Bool
  | [] => true
  | x :: xs => noIdKeys x && noIdKeysList xs

end

mutual

/-- On hashable values (the only values Python sets and dict keys can hold),
`==` coincides with structural equality. -/
theorem pyEq_hashable_iff (a b : Value) (ha : hashable a = true) :
    pyEq a b = true ↔ a = b := by
  cases a with
  | null => cases b <;> simp [pyEq]
  | bool x => cases b <;> simp [pyEq]
  | int x => cases b <;> simp [pyEq]
  | str x => cases b <;> simp [pyEq]
  | list xs => simp [hashable] at ha
  | dict fs => simp [hashable] at ha
  | tuple xs =>
      cases b with
      | tuple ys =>
          have h := pyEqList_hashable_iff xs ys (by simpa [hashable] using ha)
          simp [pyEq, h]
      | null => simp [pyEq]
      | bool y => simp [pyEq]
      | int y => simp [pyEq]
      | str y => simp [pyEq]
      | list ys => simp [pyEq]
      | dict gs => simp [pyEq]

theorem pyEqList_hashable_iff (xs ys : List Value) (h : hashableList xs = true) :
    pyEqList xs ys = true ↔ xs = ys := by
  match xs, ys with
  | [], [] => simp [pyEqList]
  | [], y :: ys => simp [pyEqList]
  | x :: xs, [] => simp [pyEqList]
  | x :: xs, y :: ys =>
      have hx : hashable x = true ∧ hashableList xs = true := by
        simpa [hashableList, Bool.and_eq_true] using h
      have h1 := pyEq_hashable_iff x y hx.1
      have h2 := pyEqList_hashable_iff xs ys hx.2
      simp [pyEqList, Bool.and_eq_true, h1, h2]

end

/-- Reflexivity of `==` on hashable values. -/
theorem pyEq_hashable_refl (a : Value) (ha : hashable a = true) :
    pyEq a a = true :=
  (pyEq_hashable_iff a a ha).mpr rfl

theorem wfFields_mem {fs : List (Value × Value)} {p : Value × Value}
    (h : wfFields fs = true) (hp : p ∈ fs) :
    wfValue p.2 = true ∧ setFieldOk p.1 p.2 = true := by
  induction fs with
  | nil => cases hp
  | cons q rest ih =>
      obtain ⟨k, v⟩ := q
      have h' : wfValue v = true ∧ setFieldOk k v = true ∧ wfFields rest = true := by
        simpa [wfFields, Bool.and_eq_true, and_assoc] using h
      rw [List.mem_cons] at hp
      rcases hp with rfl | hp
      · exact ⟨h'.1, h'.2.1⟩
      · exact ih h'.2.2 hp

theorem wfList_mem {xs : List Value} {x : Value}
    (h : wfList xs = true) (hx : x ∈ xs) : wfValue x = true := by
  induction xs with
  | nil => cases hx
  | cons y rest ih =>
      have h' : wfValue y = true ∧ wfList rest = true := by
        simpa [wfList, Bool.and_eq_true] using h
      rw [List.mem_cons] at hx
      rcases hx with rfl | hx
      · exact h'.1
      · exact ih h'.2 hx

theorem keysOk_cons {k1 v1 : Value} {rest : List (Value × Value)}
    (hkeys : keysOk ((k1, v1) :: rest) = true) :
    hashable k1 = true ∧ (∀ p ∈ rest, hashable p.1 = true)
      ∧ (∀ p ∈ rest, pyEq k1 p.1 = false) ∧ keysOk rest = true := by
  have h : (hashable k1 = true ∧ ∀ p ∈ rest, hashable p.1 = true)
      ∧ (∀ p ∈ rest, (!pyEq k1 p.1) = true) ∧ keysDistinct rest = true := by
    simpa [keysOk, keysDistinct, List.all_eq_true, Bool.and_eq_true] using hkeys
  refine ⟨h.1.1, h.1.2, fun p hp => ?_, ?_⟩
  · have := h.2.1 p hp
    simpa using this
  · simp only [keysOk, Bool.and_eq_true, List.all_eq_true]
    exact ⟨h.1.2, h.2.2⟩

/-- Searching a dict for one of its own entries (`pyFindEq` as used by dict
equality) succeeds when the keys are Python-dict keys. -/
theorem pyFindEq_mem (fs : List (Value × Value)) (k v : Value)
    (hmem : (k, v) ∈ fs) (hkeys : keysOk fs = true)
    (hv : pyEq v v = true) : pyFindEq k v fs = true := by
  induction fs with
  | nil => cases hmem
  | cons q rest ih =>
      obtain ⟨k1, v1⟩ := q
      obtain ⟨hk1, hkrest, hdist, hkeysRest⟩ := keysOk_cons hkeys
      rw [List.mem_cons] at hmem
      rcases hmem with heq | hmem
      · injection heq with hk hv2
        subst hk; subst hv2
        simp [pyFindEq, pyEq_hashable_refl k hk1, hv]
      · have hkh : hashable k = true := hkrest (k, v) hmem
        have hk1k : pyEq k k1 = false := by
          cases hcase : pyEq k k1
          · rfl
          · exfalso
            have hkk1 : k = k1 := (pyEq_hashable_iff k k1 hkh).mp hcase
            have := hdist (k, v) hmem
            rw [hkk1] at this
            rw [pyEq_hashable_refl k1 (hkk1 ▸ hkh)] at this
            cases this
        simpa [pyFindEq, hk1k] using ih hmem hkeysRest

mutual

/-- Python `==` is reflexive on well-formed trees. -/
theorem pyEq_refl (v : Value) (h : wfValue v = true) : pyEq v v = true := by
  cases v with
  | null => simp [pyEq]
  | bool b => simp [pyEq]
  | int n => simp [pyEq]
  | str s => simp [pyEq]
  | list xs => simpa [pyEq] using pyEqList_refl xs (by simpa [wfValue] using h)
  | tuple xs => simpa [pyEq] using pyEqList_refl xs (by simpa [wfValue] using h)
  | dict fs =>
      have h' : keysOk fs = true ∧ wfFields fs = true := by
        simpa [wfValue, Bool.and_eq_true] using h
      have := pyEqFields_self fs fs h'.1 (fun p hp => hp) h'.2
      simp [pyEq, this]

theorem pyEqList_refl (xs : List Value) (h : wfList xs = true) :
    pyEqList xs xs = true := by
  match xs with
  | [] => simp [pyEqList]
  | x :: rest =>
      have h' : wfValue x = true ∧ wfList rest = true := by
        simpa [wfList, Bool.and_eq_true] using h
      simp [pyEqList, pyEq_refl x h'.1, pyEqList_refl rest h'.2]

theorem pyEqFields_self (sub full : List (Value × Value))
    (hkeys : keysOk full = true) (hmem : ∀ p ∈ sub, p ∈ full)
    (hwf : wfFields sub = true) : pyEqFields sub full = true := by
  match sub with
  | [] => simp [pyEqFields]
  | (k, v) :: rest =>
      have h' : wfValue v = true ∧ setFieldOk k v = true ∧ wfFields rest = true := by
        simpa [wfFields, Bool.and_eq_true, and_assoc] using hwf
      have hfind := pyFindEq_mem full k v (hmem (k, v) (List.mem_cons_self _ _))
        hkeys (pyEq_refl v h'.1)
      have hrest := pyEqFields_self rest full hkeys
        (fun p hp => hmem p (List.mem_cons_of_mem _ hp)) h'.2.2
      simp [pyEqFields, hfind, hrest]

end

/-- Looking up an entry a Python dict itself contains finds exactly that
entry. -/
theorem pyLookup_self (fs : List (Value × Value)) (k v : Value)
    (hkeys : keysOk fs = true) (hmem : (k, v) ∈ fs) :
    pyLookup fs k = some v := by
  induction fs with
  | nil => cases hmem
  | cons q rest ih =>
      obtain ⟨k1, v1⟩ := q
      obtain ⟨hk1, hkrest, hdist, hkeysRest⟩ := keysOk_cons hkeys
      rw [List.mem_cons] at hmem
      rcases hmem with heq | hmem
      · injection heq with hk hv2
        subst hk; subst hv2
        simp [pyLookup, pyEq_hashable_refl k hk1]
      · have hkh : hashable k = true := hkrest (k, v) hmem
        have hk1k : pyEq k1 k = false := by
          cases hcase : pyEq k1 k
          · rfl
          · exfalso
            have hkk1 : k1 = k := (pyEq_hashable_iff k1 k hk1).mp hcase
            have := hdist (k, v) hmem
            rw [hkk1] at this
            rw [pyEq_hashable_refl k hkh] at this
            cases this
        simpa [pyLookup, hk1k] using ih hkeysRest hmem

/-- A successful dict lookup means `key in dict` is true. -/
theorem pyContains_of_lookup (fs : List (Value × Value)) (k w : Value)
    (h : pyLookup fs k = some w) : pyContains (.dict fs) k = .ok true := by
  induction fs with
  | nil => simp [pyLookup] at h
  | cons q rest ih =>
      obtain ⟨k1, v1⟩ := q
      by_cases hc : pyEq k1 k = true
      · simp [pyContains, List.any_cons, hc]
      · have hc' : pyEq k1 k = false := by
          cases hcase : pyEq k1 k
          · rfl
          · exact absurd hcase hc
        rw [pyLookup, if_neg (by simp [hc'])] at h
        have := ih h
        simp only [pyContains, Except.ok.injEq] at this
        simp [pyContains, List.any_cons, hc', this]

/-- A successful dict lookup is what subscription returns. -/
theorem pyGetItem_dict (fs : List (Value × Value)) (k w : Value)
    (h : pyLookup fs k = some w) : pyGetItem (.dict fs) k = .ok w := by
  simp [pyGetItem, h]

/-- Master lemma: diffing a dict against a `want` list each of whose entries
matches the corresponding current value yields the empty diff. -/
theorem diff_params_empty_of_matches (hfs : List (Value × Value))
    (s : List (Value × Value))
    (h : ∀ p ∈ s, (pyLookup hfs p.1).isSome = true
        ∧ MatchesAt p.1 ((pyLookup hfs p.1).getD .null) p.2) :
    diff_params (.dict hfs) s = .ok [] := by
  match s with
  | [] => simp [diff_params]
  | (k, v) :: rest =>
      obtain ⟨hsome, hmatch⟩ := h (k, v) (List.mem_cons_self _ _)
      obtain ⟨w, hlook⟩ := Option.isSome_iff_exists.mp hsome
      rw [hlook] at hmatch
      simp only [Option.getD_some] at hmatch
      have hrest : diff_params (.dict hfs) rest = .ok [] :=
        diff_params_empty_of_matches hfs rest
          (fun p hp => h p (List.mem_cons_of_mem _ hp))
      have hcont := pyContains_of_lookup hfs k w hlook
      have hget := pyGetItem_dict hfs k w hlook
      cases hmatch with
      | setF k ys xs hset hys hxs heq =>
          simp [diff_params, hcont, hget, hset, hrest, pySetElems, pyIter,
            hys, hxs, heq, bind, Except.bind, List.all_eq_true]
      | dictF k sub s2 hkeys hsome2 hsub =>
          have hinner : diff_params (.dict sub) s2 = .ok [] :=
            diff_params_empty_of_matches sub s2
              (fun p hp => ⟨hsome2 p hp, hsub p hp⟩)
          simp [diff_params, hcont, hget, hinner, hrest, bind, Except.bind]
      | eqF k v0 v hnd hnl heqv =>
          cases v with
          | dict s2 => exact absurd rfl (hnd s2)
          | list xs =>
              have hns : isSetParam k = false := by
                cases hcase : isSetParam k
                · rfl
                · exact absurd rfl (hnl hcase xs)
              simp [diff_params, hcont, hget, hns, heqv, hrest, bind, Except.bind]
          | null => simp [diff_params, hcont, hget, heqv, hrest, bind, Except.bind]
          | bool b => simp [diff_params, hcont, hget, heqv, hrest, bind, Except.bind]
          | int n => simp [diff_params, hcont, hget, heqv, hrest, bind, Except.bind]
          | str s3 => simp [diff_params, hcont, hget, heqv, hrest, bind, Except.bind]
          | tuple xs => simp [diff_params, hcont, hget, heqv, hrest, bind, Except.bind]

/-- A list of hashable elements is set-equal to itself. -/
theorem pySetEq_refl (xs : List Value) (h : xs.all hashable = true) :
    pySetEq xs xs = true := by
  rw [List.all_eq_true] at h
  simp only [pySetEq, Bool.and_eq_true, List.all_eq_true]
  constructor
  · intro x hx
    rw [List.any_eq_true]
    exact ⟨x, hx, pyEq_hashable_refl x (h x hx)⟩
  · intro y hy
    rw [List.any_eq_true]
    exact ⟨y, hy, pyEq_hashable_refl y (h y hy)⟩

theorem filter_cons_null (k0 : Value) (rest : List (Value × Value)) :
    filter_empty_params ((k0, Value.null) :: rest) = filter_empty_params rest := by
  simp only [filter_empty_params]

theorem filter_cons_dict_empty (k0 : Value) (sub rest : List (Value × Value))
    (h : (filter_empty_params sub).isEmpty = true) :
    filter_empty_params ((k0, Value.dict sub) :: rest) =
      filter_empty_params rest := by
  rw [filter_empty_params]
  simp [h]

theorem filter_cons_dict_nonempty (k0 : Value) (sub rest : List (Value × Value))
    (h : ¬ (filter_empty_params sub).isEmpty = true) :
    filter_empty_params ((k0, Value.dict sub) :: rest) =
      (k0, Value.dict (filter_empty_params sub)) :: filter_empty_params rest := by
  rw [filter_empty_params]
  simp [h]

theorem filter_cons_other (k0 v : Value) (rest : List (Value × Value))
    (hnd : ∀ sub, v ≠ Value.dict sub) (hnn : v ≠ Value.null) :
    filter_empty_params ((k0, v) :: rest) =
      (k0, v) :: filter_empty_params rest := by
  cases v with
  | dict sub => exact absurd rfl (hnd sub)
  | null => exact absurd rfl hnn
  | bool b => simp only [filter_empty_params]
  | int n => simp only [filter_empty_params]
  | str s => simp only [filter_empty_params]
  | list xs => simp only [filter_empty_params]
  | tuple xs => simp only [filter_empty_params]

theorem matchesAt_refl_aux (n : Nat) : ∀ (k v : Value), sizeOf v ≤ n →
    wfValue v = true → setFieldOk k v = true → MatchesAt k v v := by
  induction n with
  | zero =>
      intro k v hle hwf hsf
      exfalso
      cases v <;> simp at hle
  | succ n ih =>
      intro k v hle hwf hsf
      cases v with
      | dict fs =>
          have h' : keysOk fs = true ∧ wfFields fs = true := by
            simpa [wfValue, Bool.and_eq_true] using hwf
          refine MatchesAt.dictF k fs fs h'.1 ?_ ?_
          · intro p hp
            rw [pyLookup_self fs p.1 p.2 h'.1 hp]
            rfl
          · intro p hp
            rw [pyLookup_self fs p.1 p.2 h'.1 hp]
            simp only [Option.getD_some]
            have hw := wfFields_mem h'.2 hp
            have hsz : sizeOf p.2 ≤ n := by
              have h1 := List.sizeOf_lt_of_mem hp
              have h2 : sizeOf p.2 < sizeOf p := by
                obtain ⟨a, b⟩ := p
                show sizeOf b < sizeOf (a, b)
                simp only [Prod.mk.sizeOf_spec]
                omega
              simp only [Value.dict.sizeOf_spec] at hle
              omega
            exact ih p.1 p.2 hsz hw.1 hw.2
      | list xs =>
          cases hcase : isSetParam k with
          | true =>
              have hhash : xs.all hashable = true := by
                simpa [setFieldOk, hcase] using hsf
              exact MatchesAt.setF k xs xs hcase hhash hhash
                (pySetEq_refl xs hhash)
          | false =>
              refine MatchesAt.eqF k _ _ (fun s h => by cases h) ?_
                (pyEq_refl _ hwf)
              intro hbad
              rw [hcase] at hbad
              cases hbad
      | null =>
          exact MatchesAt.eqF k _ _ (fun s h => by cases h)
            (fun _ xs h => by cases h) (pyEq_refl _ hwf)
      | bool b =>
          exact MatchesAt.eqF k _ _ (fun s h => by cases h)
            (fun _ xs h => by cases h) (pyEq_refl _ hwf)
      | int m =>
          exact MatchesAt.eqF k _ _ (fun s h => by cases h)
            (fun _ xs h => by cases h) (pyEq_refl _ hwf)
      | str s =>
          exact MatchesAt.eqF k _ _ (fun s h => by cases h)
            (fun _ xs h => by cases h) (pyEq_refl _ hwf)
      | tuple xs =>
          exact MatchesAt.eqF k _ _ (fun s h => by cases h)
            (fun _ xs h => by cases h) (pyEq_refl _ hwf)

/-- Every well-formed value matches itself at any key whose set-field
obligation it satisfies. -/
theorem matchesAt_refl (k v : Value) (hwf : wfValue v = true)
    (hsf : setFieldOk k v = true) : MatchesAt k v v :=
  matchesAt_refl_aux (sizeOf v) k v le_rfl hwf hsf

/-- Filtering keeps only entries whose key already appeared. -/
theorem filter_empty_params_keys (l : List (Value × Value))
    (p : Value × Value) (hp : p ∈ filter_empty_params l) :
    ∃ v0, (p.1, v0) ∈ l := by
  induction l with
  | nil => simp [filter_empty_params] at hp
  | cons q rest ih =>
      obtain ⟨k0, v0⟩ := q
      cases v0 with
      | dict sub =>
          by_cases hemp : (filter_empty_params sub).isEmpty = true
          · rw [filter_cons_dict_empty k0 sub rest hemp] at hp
            obtain ⟨w, hw⟩ := ih hp
            exact ⟨w, List.mem_cons_of_mem _ hw⟩
          · rw [filter_cons_dict_nonempty k0 sub rest hemp] at hp
            rw [List.mem_cons] at hp
            rcases hp with rfl | hp
            · exact ⟨.dict sub, List.mem_cons_self _ _⟩
            · obtain ⟨w, hw⟩ := ih hp
              exact ⟨w, List.mem_cons_of_mem _ hw⟩
      | null =>
          rw [filter_cons_null] at hp
          obtain ⟨w, hw⟩ := ih hp
          exact ⟨w, List.mem_cons_of_mem _ hw⟩
      | bool b =>
          rw [filter_cons_other k0 (.bool b) rest (fun _ h => by cases h)
            (by intro h; cases h)] at hp
          rw [List.mem_cons] at hp
          rcases hp with rfl | hp
          · exact ⟨.bool b, List.mem_cons_self _ _⟩
          · obtain ⟨w, hw⟩ := ih hp
            exact ⟨w, List.mem_cons_of_mem _ hw⟩
      | int n =>
          rw [filter_cons_other k0 (.int n) rest (fun _ h => by cases h)
            (by intro h; cases h)] at hp
          rw [List.mem_cons] at hp
          rcases hp with rfl | hp
          · exact ⟨.int n, List.mem_cons_self _ _⟩
          · obtain ⟨w, hw⟩ := ih hp
            exact ⟨w, List.mem_cons_of_mem _ hw⟩
      | str s =>
          rw [filter_cons_other k0 (.str s) rest (fun _ h => by cases h)
            (by intro h; cases h)] at hp
          rw [List.mem_cons] at hp
          rcases hp with rfl | hp
          · exact ⟨.str s, List.mem_cons_self _ _⟩
          · obtain ⟨w, hw⟩ := ih hp
            exact ⟨w, List.mem_cons_of_mem _ hw⟩
      | list xs =>
          rw [filter_cons_other k0 (.list xs) rest (fun _ h => by cases h)
            (by intro h; cases h)] at hp
          rw [List.mem_cons] at hp
          rcases hp with rfl | hp
          · exact ⟨.list xs, List.mem_cons_self _ _⟩
          · obtain ⟨w, hw⟩ := ih hp
            exact ⟨w, List.mem_cons_of_mem _ hw⟩
      | tuple xs =>
          rw [filter_cons_other k0 (.tuple xs) rest (fun _ h => by cases h)
            (by intro h; cases h)] at hp
          rw [List.mem_cons] at hp
          rcases hp with rfl | hp
          · exact ⟨.tuple xs, List.mem_cons_self _ _⟩
          · obtain ⟨w, hw⟩ := ih hp
            exact ⟨w, List.mem_cons_of_mem _ hw⟩

theorem filter_matches_aux (n : Nat) : ∀ (d : List (Value × Value)),
    sizeOf d ≤ n → wfValue (.dict d) = true →
    ∀ p ∈ filter_empty_params d,
      (pyLookup d p.1).isSome = true
        ∧ MatchesAt p.1 ((pyLookup d p.1).getD .null) p.2 := by
  induction n with
  | zero =>
      intro d hle _ p hp
      exfalso
      cases d with
      | nil => simp [filter_empty_params] at hp
      | cons q rest => simp [List.cons.sizeOf_spec] at hle
  | succ n ih =>
      intro d hle hwf p hp
      cases d with
      | nil => simp [filter_empty_params] at hp
      | cons q rest =>
          obtain ⟨k0, v0⟩ := q
          have hwf' : keysOk ((k0, v0) :: rest) = true
              ∧ wfFields ((k0, v0) :: rest) = true := by
            simpa [wfValue, Bool.and_eq_true] using hwf
          obtain ⟨hk0, hkrest, hdist, hkeysRest⟩ := keysOk_cons hwf'.1
          have hwfF : wfValue v0 = true ∧ setFieldOk k0 v0 = true
              ∧ wfFields rest = true := by
            simpa [wfFields, Bool.and_eq_true, and_assoc] using hwf'.2
          have hwfRest : wfValue (.dict rest) = true := by
            simp only [wfValue, Bool.and_eq_true]
            exact ⟨hkeysRest, hwfF.2.2⟩
          have hsizeRest : sizeOf rest ≤ n := by
            simp only [List.cons.sizeOf_spec, Prod.mk.sizeOf_spec] at hle
            omega
          have htail : ∀ q2 ∈ filter_empty_params rest,
              (pyLookup ((k0, v0) :: rest) q2.1).isSome = true
                ∧ MatchesAt q2.1 ((pyLookup ((k0, v0) :: rest) q2.1).getD .null)
                    q2.2 := by
            intro q2 hq2
            obtain ⟨w0, hw0⟩ := filter_empty_params_keys rest q2 hq2
            have hne : pyEq k0 q2.1 = false := hdist (q2.1, w0) hw0
            have hstep : pyLookup ((k0, v0) :: rest) q2.1 = pyLookup rest q2.1 := by
              simp [pyLookup, hne]
            rw [hstep]
            exact ih rest hsizeRest hwfRest q2 hq2
          cases v0 with
          | dict sub =>
              by_cases hemp : (filter_empty_params sub).isEmpty = true
              · rw [filter_cons_dict_empty k0 sub rest hemp] at hp
                exact htail p hp
              · rw [filter_cons_dict_nonempty k0 sub rest hemp] at hp
                rw [List.mem_cons] at hp
                rcases hp with rfl | hp
                · constructor
                  · simp [pyLookup, pyEq_hashable_refl k0 hk0]
                  · simp only [pyLookup, pyEq_hashable_refl k0 hk0, if_pos,
                      Option.getD_some]
                    have hwfSub : wfValue (.dict sub) = true := hwfF.1
                    have hkeysSub : keysOk sub = true := by
                      have := hwfSub
                      simp only [wfValue, Bool.and_eq_true] at this
                      exact this.1
                    refine MatchesAt.dictF k0 sub (filter_empty_params sub)
                      hkeysSub ?_ ?_
                    · intro q2 hq2
                      refine (ih sub ?_ hwfSub q2 hq2).1
                      simp only [List.cons.sizeOf_spec, Prod.mk.sizeOf_spec,
                        Value.dict.sizeOf_spec] at hle
                      omega
                    · intro q2 hq2
                      refine (ih sub ?_ hwfSub q2 hq2).2
                      simp only [List.cons.sizeOf_spec, Prod.mk.sizeOf_spec,
                        Value.dict.sizeOf_spec] at hle
                      omega
                · exact htail p hp
          | null =>
              rw [filter_cons_null] at hp
              exact htail p hp
          | bool b =>
              rw [filter_cons_other k0 (.bool b) rest (fun _ h => by cases h)
                (by intro h; cases h)] at hp
              rw [List.mem_cons] at hp
              rcases hp with rfl | hp
              · refine ⟨by simp [pyLookup, pyEq_hashable_refl k0 hk0], ?_⟩
                simp only [pyLookup, pyEq_hashable_refl k0 hk0, if_pos,
                  Option.getD_some]
                exact matchesAt_refl k0 (.bool b) hwfF.1 hwfF.2.1
              · exact htail p hp
          | int m =>
              rw [filter_cons_other k0 (.int m) rest (fun _ h => by cases h)
                (by intro h; cases h)] at hp
              rw [List.mem_cons] at hp
              rcases hp with rfl | hp
              · refine ⟨by simp [pyLookup, pyEq_hashable_refl k0 hk0], ?_⟩
                simp only [pyLookup, pyEq_hashable_refl k0 hk0, if_pos,
                  Option.getD_some]
                exact matchesAt_refl k0 (.int m) hwfF.1 hwfF.2.1
              · exact htail p hp
          | str s =>
              rw [filter_cons_other k0 (.str s) rest (fun _ h => by cases h)
                (by intro h; cases h)] at hp
              rw [List.mem_cons] at hp
              rcases hp with rfl | hp
              · refine ⟨by simp [pyLookup, pyEq_hashable_refl k0 hk0], ?_⟩
                simp only [pyLookup, pyEq_hashable_refl k0 hk0, if_pos,
                  Option.getD_some]
                exact matchesAt_refl k0 (.str s) hwfF.1 hwfF.2.1
              · exact htail p hp
          | list xs =>
              rw [filter_cons_other k0 (.list xs) rest (fun _ h => by cases h)
                (by intro h; cases h)] at hp
              rw [List.mem_cons] at hp
              rcases hp with rfl | hp
              · refine ⟨by simp [pyLookup, pyEq_hashable_refl k0 hk0], ?_⟩
                simp only [pyLookup, pyEq_hashable_refl k0 hk0, if_pos,
                  Option.getD_some]
                exact matchesAt_refl k0 (.list xs) hwfF.1 hwfF.2.1
              · exact htail p hp
          | tuple xs =>
              rw [filter_cons_other k0 (.tuple xs) rest (fun _ h => by cases h)
                (by intro h; cases h)] at hp
              rw [List.mem_cons] at hp
              rcases hp with rfl | hp
              · refine ⟨by simp [pyLookup, pyEq_hashable_refl k0 hk0], ?_⟩
                simp only [pyLookup, pyEq_hashable_refl k0 hk0, if_pos,
                  Option.getD_some]
                exact matchesAt_refl k0 (.tuple xs) hwfF.1 hwfF.2.1
              · exact htail p hp

/-- C1: for every well-formed state tree `have` (nested dicts, lists and
scalars with Python-dict keys, set-field values being lists of hashable
scalars), diffing `have` against its own sanitized form yields the empty
mapping: `diff_params(have, sanitize_params(have)) == {}`. -/
theorem diff_params_sanitize_self_empty (d : List (Value × Value))
    (hwf : wfState d = true) :
    diff_params (.dict d) (sanitize_params d) = .ok [] := by
  apply diff_params_empty_of_matches
  intro p hp
  have hp' : p ∈ filter_empty_params d := (List.mem_filter.mp hp).1
  exact filter_matches_aux (sizeOf d) d le_rfl hwf p hp'

/-- Witness for C1 at a concrete state tree. -/
theorem diff_params_sanitize_self_empty_witness :
    wfState exampleZoneData = true
      ∧ diff_params (.dict exampleZoneData)
          (sanitize_params exampleZoneData) = .ok [] := by
  have hwf : wfState exampleZoneData = true := by
    simp [wfState, exampleZoneData, wfValue, wfFields, wfList, keysOk,
      keysDistinct, setFieldOk, isSetParam, SET_PARAMS, hashable,
      hashableList, pyEq]
  exact ⟨hwf, diff_params_sanitize_self_empty exampleZoneData hwf⟩

/-- C5: when `want[f]` is a nested object, `f` is present in `have`, and the
recursive diff of `have[f]` against `want[f]` is empty, the diff contains no
entry for `f` at all — not an entry bound to an empty sub-mapping — whatever
extra keys `have[f]` carries. -/
theorem diff_params_nested_equal_collapses (hav k hv : Value)
    (sub rest : List (Value × Value))
    (hmem : pyContains hav k = .ok true)
    (hget : pyGetItem hav k = .ok hv)
    (hsub : diff_params hv sub = .ok []) :
    diff_params hav ((k, .dict sub) :: rest) = diff_params hav rest := by
  cases hrest : diff_params hav rest with
  | ok d => simp [diff_params, hmem, hget, hsub, hrest, bind, Except.bind]
  | error e => simp [diff_params, hmem, hget, hsub, hrest, bind, Except.bind]

/-- Witness for C5 at the example from the spec: `want.secondary = {enabled: true}`
against `have.secondary = {enabled: true, primary_ip: "1.1.1.1"}` diffs to
the empty mapping, with no entry for `secondary`. -/
theorem diff_params_nested_equal_collapses_witness :
    diff_params
      (.dict [(.str "secondary", .dict
        [(.str "enabled", .bool true), (.str "primary_ip", .str "1.1.1.1")])])
      [(.str "secondary", .dict [(.str "enabled", .bool true)])] = .ok [] := by
  have h := diff_params_nested_equal_collapses
    (.dict [(.str "secondary", .dict
      [(.str "enabled", .bool true), (.str "primary_ip", .str "1.1.1.1")])])
    (.str "secondary")
    (.dict [(.str "enabled", .bool true), (.str "primary_ip", .str "1.1.1.1")])
    [(.str "enabled", .bool true)] []
    (by simp [pyContains, pyEq])
    (by simp [pyGetItem, pyLookup, pyEq])
    (by simp [diff_params, pyContains, pyGetItem, pyLookup, pyEq,
      bind, Except.bind])
  simpa [diff_params] using h

/-- C6 counterexample: `diff_params({}, {"a": null})` is `{"a": null}`, not
the empty mapping the claim asserts — the absent-from-have branch records
the null wholesale. -/
theorem diff_params_null_field_counterexample :
    diff_params (.dict []) [(.str "a", .null)] = .ok [(.str "a", .null)]
      ∧ diff_params (.dict []) [(.str "a", .null)] ≠ .ok [] := by
  constructor
  · rfl
  · rw [show diff_params (.dict []) [(.str "a", .null)]
        = .ok [(.str "a", .null)] from rfl]
    simp

/-- C6 amended: on empty `have`, a field bound to null in `want` is recorded
as a diff entry with value null (the absent-field branch copies it
wholesale); a null field produces no diff entry only after `sanitize_params`
has stripped it, which is what the module does before every diff. -/
theorem diff_params_null_field_amended (k : Value) :
    diff_params (.dict []) [(k, .null)] = .ok [(k, .null)]
      ∧ diff_params (.dict []) (sanitize_params [(k, .null)]) = .ok [] := by
  constructor
  · rfl
  · simp [sanitize_params, filter_empty_params, diff_params]

/-- C8 counterexample: with `have.f` a scalar and `want.f` a (non-empty)
nested object, `diff_params` does not record `want.f` wholesale — it
attempts the recursive compare on the scalar and raises a TypeError. -/
theorem diff_params_divergent_shape_counterexample :
    diff_params (.dict [(.str "f", .int 1)])
        [(.str "f", .dict [(.str "a", .int 2)])]
      = .error (.typeError "argument is not iterable")
    ∧ diff_params (.dict [(.str "f", .int 1)])
        [(.str "f", .dict [(.str "a", .int 2)])]
      ≠ .ok [(.str "f", .dict [(.str "a", .int 2)])] := by
  have h : diff_params (.dict [(.str "f", .int 1)])
      [(.str "f", .dict [(.str "a", .int 2)])]
      = .error (.typeError "argument is not iterable") := by
    simp [diff_params, pyContains, pyEq, pyGetItem, pyLookup, bind, Except.bind]
  refine ⟨h, ?_⟩
  rw [h]
  simp

/-- C8 amended: when `want[f]` is a non-empty nested object and `have[f]` is
a non-iterable scalar (null, bool or int), `diff_params` raises a TypeError
from the membership test inside the recursive compare instead of recording
`want[f]` wholesale; divergent shapes are not treated as "absent from
have". -/
theorem diff_params_divergent_shape_errors (hav k hv : Value)
    (p : Value × Value) (ps rest : List (Value × Value))
    (hmem : pyContains hav k = .ok true)
    (hget : pyGetItem hav k = .ok hv)
    (hni : nonIterable hv = true) :
    diff_params hav ((k, .dict (p :: ps)) :: rest)
      = .error (.typeError "argument is not iterable") := by
  obtain ⟨p1, p2⟩ := p
  have hcont : pyContains hv p1
      = .error (.typeError "argument is not iterable") := by
    cases hv <;> simp [pyContains] <;> simp [nonIterable] at hni
  have hinner : diff_params hv ((p1, p2) :: ps)
      = .error (.typeError "argument is not iterable") := by
    cases p2 <;> simp [diff_params, hcont, bind, Except.bind]
  simp [diff_params, hmem, hget, hinner, bind, Except.bind]

/-- Witness for the amended claim of C8 at `have = {f: 1}`,
`want = {f: {a: 2}}`. -/
theorem diff_params_divergent_shape_errors_witness :
    pyContains (.dict [(.str "f", .int 1)]) (.str "f") = .ok true
    ∧ pyGetItem (.dict [(.str "f", .int 1)]) (.str "f") = .ok (.int 1)
    ∧ nonIterable (.int 1) = true
    ∧ diff_params (.dict [(.str "f", .int 1)])
        [(.str "f", .dict [(.str "a", .int 2)])]
      = .error (.typeError "argument is not iterable") := by
  refine ⟨by simp [pyContains, pyEq], by simp [pyGetItem, pyLookup, pyEq],
    rfl, ?_⟩
  exact diff_params_divergent_shape_errors (.dict [(.str "f", .int 1)])
    (.str "f") (.int 1) (.str "a", .int 2) [] []
    (by simp [pyContains, pyEq]) (by simp [pyGetItem, pyLookup, pyEq]) rfl

/-- C2: when the computed diff between an existing resource and the desired
parameters is empty, `update_on_change` (zone and tsig variants) reports
`changed = false` and never invokes the update write; conversely, in either
variant the write is issued only when the diff is non-empty. -/
theorem update_on_change_no_write_on_empty_diff
    (zd want : List (Value × Value)) (cm : Bool) (d : List (Value × Value))
    (h : get_changed_params zd want = .ok d) :
    (d = [] →
       update_on_change zd want cm = .ok ⟨false, false⟩
         ∧ tsig_update_on_change zd want cm = .ok ⟨false, false⟩)
    ∧ (∀ c : Bool, update_on_change zd want cm = .ok ⟨c, true⟩ → d ≠ [])
    ∧ (∀ c : Bool, tsig_update_on_change zd want cm = .ok ⟨c, true⟩ →
        d ≠ []) := by
  refine ⟨?_, ?_, ?_⟩
  · rintro rfl
    constructor <;>
      simp [update_on_change, tsig_update_on_change, h, bind, Except.bind]
  · intro c hc heq
    subst heq
    simp [update_on_change, h, bind, Except.bind, UpdateOutcome.mk.injEq] at hc
  · intro c hc heq
    subst heq
    simp [tsig_update_on_change, h, bind, Except.bind,
      UpdateOutcome.mk.injEq] at hc

/-- Witness for C2: identical current and desired scalar state gives an
empty diff, `changed = false`, and no write, in both variants. -/
theorem update_on_change_no_write_on_empty_diff_witness :
    get_changed_params [(.str "nx_ttl", .int 0)] [(.str "nx_ttl", .int 0)]
        = .ok []
    ∧ update_on_change [(.str "nx_ttl", .int 0)] [(.str "nx_ttl", .int 0)]
        false = .ok ⟨false, false⟩
    ∧ tsig_update_on_change [(.str "nx_ttl", .int 0)]
        [(.str "nx_ttl", .int 0)] false = .ok ⟨false, false⟩ := by
  have h : get_changed_params [(.str "nx_ttl", .int 0)]
      [(.str "nx_ttl", .int 0)] = .ok [] := by
    simp [get_changed_params, diff_params, pyContains, pyGetItem, pyLookup,
      pyEq, bind, Except.bind]
  have h2 := update_on_change_no_write_on_empty_diff
    [(.str "nx_ttl", .int 0)] [(.str "nx_ttl", .int 0)] false [] h
  exact ⟨h, (h2.1 rfl).1, (h2.1 rfl).2⟩

/-- On hashable element lists, Python set equality is mutual membership. -/
theorem pySetEq_iff (xs ys : List Value)
    (hxs : ∀ x ∈ xs, hashable x = true) :
    pySetEq xs ys = true ↔ ((∀ x ∈ xs, x ∈ ys) ∧ (∀ y ∈ ys, y ∈ xs)) := by
  simp only [pySetEq, Bool.and_eq_true, List.all_eq_true, List.any_eq_true]
  constructor
  · rintro ⟨h1, h2⟩
    constructor
    · intro x hx
      obtain ⟨y, hy, hxy⟩ := h1 x hx
      have hxey := (pyEq_hashable_iff x y (hxs x hx)).mp hxy
      rw [hxey]
      exact hy
    · intro y hy
      obtain ⟨x, hx, hxy⟩ := h2 y hy
      have hxey := (pyEq_hashable_iff x y (hxs x hx)).mp hxy
      rw [← hxey]
      exact hx
  · rintro ⟨h1, h2⟩
    constructor
    · intro x hx
      exact ⟨x, h1 x hx, pyEq_hashable_refl x (hxs x hx)⟩
    · intro y hy
      exact ⟨y, h2 y hy, pyEq_hashable_refl y (hxs y (h2 y hy))⟩

/-- The element list Python `set()` accepts is all-hashable. -/
theorem pySetElems_ok_hashable (v : Value) (hs : List Value)
    (h : pySetElems v = .ok hs) : hs.all hashable = true := by
  cases hit : pyIter v with
  | ok ws =>
      rw [pySetElems, hit] at h
      by_cases hall : ws.all hashable = true
      · simp only [bind, Except.bind, hall, if_pos] at h
        injection h with h2
        subst h2
        exact hall
      · simp only [bind, Except.bind, if_neg hall] at h
        cases h
  | error e =>
      rw [pySetElems, hit] at h
      simp only [bind, Except.bind] at h
      cases h

/-- C3: for a set-list field `f` present in `have`, the decision recorded by
`diff_params` depends only on the element set of `want[f]` (any list with
the same element set — permutation or duplicates — yields the same
decision), an entry is recorded iff `set(have[f]) != set(want[f])` (so an
empty desired list against a non-empty remote set is a detected change),
and the recorded value is the literal list passed in `want`. -/
theorem diff_params_set_field_decision
    (hav hv : Value) (f : String) (hs xs ys : List Value)
    (rest : List (Value × Value))
    (hf : f ∈ SET_PARAMS)
    (hmem : pyContains hav (.str f) = .ok true)
    (hget : pyGetItem hav (.str f) = .ok hv)
    (hset : pySetElems hv = .ok hs)
    (hxs : xs.all hashable = true) (_hys : ys.all hashable = true)
    (hsame : pySetEq xs ys = true) :
    (diff_params hav ((.str f, .list xs) :: rest)
       = Except.map
           (fun d => if pySetEq hs xs then d else (.str f, .list xs) :: d)
           (diff_params hav rest))
    ∧ pySetEq hs xs = pySetEq hs ys
    ∧ (hs ≠ [] → pySetEq hs [] = false) := by
  have hsp : isSetParam (.str f) = true := by
    show SET_PARAMS.contains f = true
    exact List.elem_eq_true_of_mem hf
  have hwset : pySetElems (.list xs) = .ok xs := by
    simp [pySetElems, pyIter, bind, Except.bind, hxs]
  have hhs' : ∀ x ∈ hs, hashable x = true :=
    List.all_eq_true.mp (pySetElems_ok_hashable hv hs hset)
  have hxs' : ∀ x ∈ xs, hashable x = true := List.all_eq_true.mp hxs
  refine ⟨?_, ?_, ?_⟩
  · cases hrest : diff_params hav rest with
    | ok d =>
        simp [diff_params, hmem, hget, hsp, hset, hwset, hrest,
          bind, Except.bind, Except.map]
    | error e =>
        simp [diff_params, hmem, hget, hsp, hset, hwset, hrest,
          bind, Except.bind, Except.map]
  · have h3 := (pySetEq_iff xs ys hxs').mp hsame
    have hiff : pySetEq hs xs = true ↔ pySetEq hs ys = true := by
      rw [pySetEq_iff hs xs hhs', pySetEq_iff hs ys hhs']
      constructor
      · rintro ⟨h1, h2⟩
        exact ⟨fun z hz => h3.1 _ (h1 z hz), fun y hy => h2 _ (h3.2 y hy)⟩
      · rintro ⟨h1, h2⟩
        exact ⟨fun z hz => h3.2 _ (h1 z hz), fun x hx => h2 _ (h3.1 x hx)⟩
    exact Bool.eq_iff_iff.mpr (by simpa using hiff)
  · intro hne
    cases hs with
    | nil => exact absurd rfl hne
    | cons z zs => simp [pySetEq]

/-- Witness for C3: `have.networks = [1,2,3]` against the permutation
`[3,2,1]` yields no diff, the decision matches that of the
duplicate-carrying `[2,1,3,3]`, and an empty desired list against the
non-empty remote set is a change. -/
theorem diff_params_set_field_decision_witness :
    pySetEq [.int 3, .int 2, .int 1] [.int 2, .int 1, .int 3, .int 3] = true
    ∧ diff_params (.dict [(.str "networks", .list [.int 1, .int 2, .int 3])])
        [(.str "networks", .list [.int 3, .int 2, .int 1])] = .ok []
    ∧ pySetEq [.int 1, .int 2, .int 3] [] = false := by
  have h := diff_params_set_field_decision
    (.dict [(.str "networks", .list [.int 1, .int 2, .int 3])])
    (.list [.int 1, .int 2, .int 3]) "networks"
    [.int 1, .int 2, .int 3] [.int 3, .int 2, .int 1]
    [.int 2, .int 1, .int 3, .int 3] []
    (by simp [SET_PARAMS])
    (by simp [pyContains, pyEq])
    (by simp [pyGetItem, pyLookup, pyEq])
    (by simp [pySetElems, pyIter, hashable, bind, Except.bind])
    (by simp [hashable]) (by simp [hashable])
    (by simp [pySetEq, pyEq])
  refine ⟨by simp [pySetEq, pyEq], ?_, h.2.2 (by simp)⟩
  rw [h.1]
  simp [diff_params, Except.map, pySetEq, pyEq]

theorem isSetParam_secKey (s : Value) : isSetParam (secKey s) = false := by
  rcases hsp : secPair s with _ | ⟨ip, port⟩ <;> simp [secKey, hsp, isSetParam]

/-- Writing a fresh key into a Python dict appends the entry. -/
theorem dictStore_append (acc : List (Value × Value)) (k v : Value)
    (h : ∀ p ∈ acc, pyEq p.1 k = false) :
    dictStore acc k v = acc ++ [(k, v)] := by
  induction acc with
  | nil => simp [dictStore]
  | cons q rest ih =>
      obtain ⟨k2, v2⟩ := q
      have hk2 : pyEq k2 k = false := h (k2, v2) (List.mem_cons_self _ _)
      simp only [dictStore, hk2, Bool.false_eq_true, if_false,
        List.cons_append, List.cons.injEq, true_and]
      exact ih (fun p hp => h p (List.mem_cons_of_mem _ hp))

theorem secKey_of_descr {fs : List (Value × Value)} {ip port : Value}
    (hip : pyLookup fs (.str "ip") = some ip)
    (hport : pyLookup fs (.str "port") = some port) :
    secKey (.dict fs) = .tuple [ip, port] := by
  simp [secKey, secPair, hip, hport]

theorem secKey_hashable_of_descr {fs : List (Value × Value)} {ip port : Value}
    (hip : pyLookup fs (.str "ip") = some ip)
    (hport : pyLookup fs (.str "port") = some port)
    (hhip : hashable ip = true) (hhport : hashable port = true) :
    hashable (secKey (.dict fs)) = true := by
  rw [secKey_of_descr hip hport]
  simp [hashable, hashableList, hhip, hhport]

/-- The conversion loop on well-shaped descriptors with pairwise-distinct
keys produces the association list of `(key, descriptor)` pairs in order. -/
theorem convert_loop_ok (ss : List Value) :
    ∀ acc : List (Value × Value), DescrOk ss →
    List.Pairwise (fun s t => pyEq (secKey s) (secKey t) = false) ss →
    (∀ p ∈ acc, ∀ s ∈ ss, pyEq p.1 (secKey s) = false) →
    convert_secondaries_loop acc ss
      = .ok (acc ++ ss.map (fun s => (secKey s, s))) := by
  induction ss with
  | nil => intro acc _ _ _; simp [convert_secondaries_loop]
  | cons s rest ih =>
      intro acc hok hdist hacc
      obtain ⟨fs, ip, port, rfl, hip, hport, hhip, hhport, hwf⟩ :=
        hok s (List.mem_cons_self _ _)
      have hkey := secKey_of_descr hip hport
      have hkeyhash : hashable (Value.tuple [ip, port]) = true := by
        simp [hashable, hashableList, hhip, hhport]
      have hstep : dictStore acc (.tuple [ip, port]) (.dict fs)
          = acc ++ [(.tuple [ip, port], .dict fs)] := by
        apply dictStore_append
        intro p hp
        have := hacc p hp (.dict fs) (List.mem_cons_self _ _)
        rwa [hkey] at this
      have hrest : convert_secondaries_loop
          (acc ++ [(.tuple [ip, port], .dict fs)]) rest
          = .ok ((acc ++ [(.tuple [ip, port], .dict fs)])
              ++ rest.map (fun t => (secKey t, t))) := by
        apply ih
        · intro t ht; exact hok t (List.mem_cons_of_mem _ ht)
        · exact (List.pairwise_cons.mp hdist).2
        · intro p hp t ht
          rw [List.mem_append] at hp
          rcases hp with hp | hp
          · exact hacc p hp t (List.mem_cons_of_mem _ ht)
          · rw [List.mem_singleton] at hp
            subst hp
            have := (List.pairwise_cons.mp hdist).1 t ht
            rwa [hkey] at this
      calc convert_secondaries_loop acc (.dict fs :: rest)
          = convert_secondaries_loop
              (dictStore acc (.tuple [ip, port]) (.dict fs)) rest := by
            simp [convert_secondaries_loop, pyGetItem, hip, hport,
              dictSetItem, hkeyhash, bind, Except.bind]
        _ = .ok (acc ++ (Value.dict fs :: rest).map
              (fun t => (secKey t, t))) := by
            rw [hstep, hrest]
            simp [hkey]

/-- Looking up the key of a descriptor in the keyed mapping of a list containing
it (with pairwise-distinct keys) finds that descriptor. -/
theorem pyLookup_map_secKey (xs : List Value) (s : Value) (hs : s ∈ xs)
    (hdist : List.Pairwise (fun a b => pyEq (secKey a) (secKey b) = false) xs)
    (hrefl : pyEq (secKey s) (secKey s) = true) :
    pyLookup (xs.map (fun t => (secKey t, t))) (secKey s) = some s := by
  induction xs with
  | nil => cases hs
  | cons t rest ih =>
      rw [List.mem_cons] at hs
      cases hc : pyEq (secKey t) (secKey s) with
      | true =>
          rcases hs with rfl | hs
          · simp [pyLookup, hc]
          · exfalso
            have := (List.pairwise_cons.mp hdist).1 s hs
            rw [this] at hc
            cases hc
      | false =>
          rcases hs with rfl | hs
          · rw [hrefl] at hc; cases hc
          · simp only [List.map_cons, pyLookup, hc, Bool.false_eq_true,
              if_false]
            exact ih hs (List.pairwise_cons.mp hdist).2

/-- C4: `diff_in_secondaries` returns false on a null desired list; true
when the desired list is present but the current one is null; true
immediately on differing lengths; otherwise true iff the recursive diff of
the two `(ip, port)`-keyed mappings is non-empty — in particular, two lists
holding the same well-shaped descriptors in different order compare as not
different. -/
theorem diff_in_secondaries_spec :
    (∀ hs : Value, diff_in_secondaries hs .null = .ok false)
    ∧ (∀ ws : Value, ws ≠ .null → diff_in_secondaries .null ws = .ok true)
    ∧ (∀ xs ys : List Value, xs.length ≠ ys.length →
        diff_in_secondaries (.list xs) (.list ys) = .ok true)
    ∧ (∀ xs ys : List Value, xs.length = ys.length →
        ∀ (hd wd d : List (Value × Value)),
          convert_secondaries_to_dict (.list xs) = .ok hd →
          convert_secondaries_to_dict (.list ys) = .ok wd →
          diff_params (.dict hd) wd = .ok d →
          diff_in_secondaries (.list xs) (.list ys) = .ok (!d.isEmpty))
    ∧ (∀ xs ys : List Value, DescrOk xs →
        List.Pairwise (fun s t => secKey s ≠ secKey t) xs →
        List.Perm ys xs →
        diff_in_secondaries (.list xs) (.list ys) = .ok false) := by
  have hbranch : ∀ xs ys : List Value, xs.length = ys.length →
      ∀ (hd wd d : List (Value × Value)),
        convert_secondaries_to_dict (.list xs) = .ok hd →
        convert_secondaries_to_dict (.list ys) = .ok wd →
        diff_params (.dict hd) wd = .ok d →
        diff_in_secondaries (.list xs) (.list ys) = .ok (!d.isEmpty) := by
    intro xs ys hlen hd wd d hch hcw hdp
    have hbne : (ys.length != xs.length) = false := by
      simp [bne_iff_ne, hlen]
    simp [diff_in_secondaries, isNull, pyLen, hbne, hch, hcw, hdp,
      bind, Except.bind]
  refine ⟨?_, ?_, ?_, hbranch, ?_⟩
  · intro hs
    simp [diff_in_secondaries, isNull]
  · intro ws hws
    cases ws with
    | null => exact absurd rfl hws
    | bool b => simp [diff_in_secondaries, isNull]
    | int n => simp [diff_in_secondaries, isNull]
    | str s => simp [diff_in_secondaries, isNull]
    | list xs => simp [diff_in_secondaries, isNull]
    | tuple xs => simp [diff_in_secondaries, isNull]
    | dict fs => simp [diff_in_secondaries, isNull]
  · intro xs ys hne
    have hbne : (ys.length != xs.length) = true := by
      simpa [bne_iff_ne] using Ne.symm hne
    simp [diff_in_secondaries, isNull, pyLen, hbne, bind, Except.bind]
  · intro xs ys hok hdist hperm
    have hlen : xs.length = ys.length := hperm.length_eq.symm
    have hkeyhash : ∀ s ∈ xs, hashable (secKey s) = true := by
      intro s hs
      obtain ⟨fs, ip, port, rfl, hip, hport, hhip, hhport, _⟩ := hok s hs
      exact secKey_hashable_of_descr hip hport hhip hhport
    have himp : ∀ l : List Value, (∀ s ∈ l, hashable (secKey s) = true) →
        List.Pairwise (fun s t => secKey s ≠ secKey t) l →
        List.Pairwise (fun s t => pyEq (secKey s) (secKey t) = false) l := by
      intro l hhash hne
      refine List.Pairwise.imp_of_mem ?_ hne
      intro a b ha hb hab
      cases hc : pyEq (secKey a) (secKey b) with
      | false => rfl
      | true =>
          exact absurd ((pyEq_hashable_iff _ _ (hhash a ha)).mp hc) hab
    have hdistP := himp xs hkeyhash hdist
    have hokY : DescrOk ys := fun s hsy => hok s (hperm.mem_iff.mp hsy)
    have hdistY : List.Pairwise (fun s t => secKey s ≠ secKey t) ys :=
      hdist.perm hperm.symm (fun h => Ne.symm h)
    have hdistPY := himp ys
      (fun s hsy => hkeyhash s (hperm.mem_iff.mp hsy)) hdistY
    have hcx : convert_secondaries_to_dict (.list xs)
        = .ok (xs.map (fun s => (secKey s, s))) := by
      have hloop := convert_loop_ok xs [] hok hdistP (by simp)
      simp [convert_secondaries_to_dict, pyIter, hloop, bind, Except.bind]
    have hcy : convert_secondaries_to_dict (.list ys)
        = .ok (ys.map (fun s => (secKey s, s))) := by
      have hloop := convert_loop_ok ys [] hokY hdistPY (by simp)
      simp [convert_secondaries_to_dict, pyIter, hloop, bind, Except.bind]
    have hdiff : diff_params (.dict (xs.map (fun s => (secKey s, s))))
        (ys.map (fun s => (secKey s, s))) = .ok [] := by
      apply diff_params_empty_of_matches
      intro p hp
      rw [List.mem_map] at hp
      obtain ⟨s, hsy, rfl⟩ := hp
      have hsx : s ∈ xs := hperm.mem_iff.mp hsy
      have hrefl : pyEq (secKey s) (secKey s) = true :=
        pyEq_hashable_refl _ (hkeyhash s hsx)
      have hlook := pyLookup_map_secKey xs s hsx hdistP hrefl
      obtain ⟨fs, ip, port, hsfs, hip, hport, hhip, hhport, hwf⟩ := hok s hsx
      constructor
      · rw [hlook]; rfl
      · rw [hlook]
        simp only [Option.getD_some]
        exact matchesAt_refl (secKey s) s hwf
          (by simp [setFieldOk, isSetParam_secKey])
    have := hbranch xs ys hlen _ _ _ hcx hcy hdiff
    simpa using this

/-- Witness for C4: the same two descriptors in swapped order compare as
not different. -/
theorem diff_in_secondaries_spec_witness :
    diff_in_secondaries (.list [secondaryA, secondaryB])
      (.list [secondaryB, secondaryA]) = .ok false := by
  have hok : DescrOk [secondaryA, secondaryB] := by
    intro s hs
    simp only [List.mem_cons, List.not_mem_nil, or_false] at hs
    rcases hs with rfl | rfl
    · refine ⟨[(.str "ip", .str "1.1.1.1"), (.str "port", .int 1)],
        .str "1.1.1.1", .int 1, rfl, ?_, ?_, rfl, rfl, ?_⟩
      · simp [pyLookup, pyEq]
      · simp [pyLookup, pyEq]
      · simp [secondaryA, wfValue, wfFields, wfList, keysOk, keysDistinct,
          setFieldOk, isSetParam, SET_PARAMS, hashable, pyEq]
    · refine ⟨[(.str "ip", .str "2.2.2.2"), (.str "port", .int 2)],
        .str "2.2.2.2", .int 2, rfl, ?_, ?_, rfl, rfl, ?_⟩
      · simp [pyLookup, pyEq]
      · simp [pyLookup, pyEq]
      · simp [secondaryB, wfValue, wfFields, wfList, keysOk, keysDistinct,
          setFieldOk, isSetParam, SET_PARAMS, hashable, pyEq]
  have hdist : List.Pairwise (fun s t => secKey s ≠ secKey t)
      [secondaryA, secondaryB] := by
    refine List.pairwise_cons.mpr ⟨?_, List.pairwise_singleton _ _⟩
    intro t ht
    simp only [List.mem_singleton] at ht
    subst ht
    simp [secondaryA, secondaryB, secKey, secPair, pyLookup, pyEq]
  have hperm : List.Perm [secondaryB, secondaryA] [secondaryA, secondaryB] :=
    List.Perm.swap _ _ _
  exact diff_in_secondaries_spec.2.2.2.2 [secondaryA, secondaryB]
    [secondaryB, secondaryA] hok hdist hperm

theorem convert_loop_missing : ∀ (ss : List Value)
    (acc : List (Value × Value)),
    (∀ s ∈ ss, ∃ fs, s = Value.dict fs) →
    PresentKeysHashable ss →
    (∃ s ∈ ss, ∃ fs, s = Value.dict fs ∧
        (pyLookup fs (.str "ip") = none ∨ pyLookup fs (.str "port") = none)) →
    ∃ f : String, (f = "ip" ∨ f = "port")
      ∧ (∃ s ∈ ss, ∃ fs, s = Value.dict fs ∧ pyLookup fs (.str f) = none)
      ∧ convert_secondaries_loop acc ss = .error (.keyError (.str f)) := by
  intro ss
  induction ss with
  | nil =>
      intro acc _ _ hbad
      obtain ⟨s, hs, _⟩ := hbad
      cases hs
  | cons s rest ih =>
      intro acc hdict hhash hbad
      obtain ⟨fs, rfl⟩ := hdict s (List.mem_cons_self _ _)
      cases hip : pyLookup fs (.str "ip") with
      | none =>
          refine ⟨"ip", Or.inl rfl,
            ⟨.dict fs, List.mem_cons_self _ _, fs, rfl, hip⟩, ?_⟩
          simp [convert_secondaries_loop, pyGetItem, hip, bind, Except.bind]
      | some ip =>
          cases hport : pyLookup fs (.str "port") with
          | none =>
              refine ⟨"port", Or.inr rfl,
                ⟨.dict fs, List.mem_cons_self _ _, fs, rfl, hport⟩, ?_⟩
              simp [convert_secondaries_loop, pyGetItem, hip, hport,
                bind, Except.bind]
          | some port =>
              have hh := hhash (.dict fs) (List.mem_cons_self _ _) fs rfl
              have hkeyhash : hashable (Value.tuple [ip, port]) = true := by
                simp [hashable, hashableList, hh.1 ip hip, hh.2 port hport]
              have hbad2 : ∃ s ∈ rest, ∃ fs2, s = Value.dict fs2 ∧
                  (pyLookup fs2 (.str "ip") = none
                    ∨ pyLookup fs2 (.str "port") = none) := by
                obtain ⟨s0, hs0, fs0, hfs0, hmiss⟩ := hbad
                rw [List.mem_cons] at hs0
                rcases hs0 with rfl | hs0
                · injection hfs0 with hfs0
                  subst hfs0
                  rcases hmiss with hmiss | hmiss
                  · rw [hip] at hmiss; cases hmiss
                  · rw [hport] at hmiss; cases hmiss
                · exact ⟨s0, hs0, fs0, hfs0, hmiss⟩
              obtain ⟨f, hforf, ⟨s1, hs1, fs1, hfs1, hnone⟩, hloop⟩ :=
                ih (dictStore acc (.tuple [ip, port]) (.dict fs))
                  (fun t ht => hdict t (List.mem_cons_of_mem _ ht))
                  (fun t ht => hhash t (List.mem_cons_of_mem _ ht)) hbad2
              refine ⟨f, hforf,
                ⟨s1, List.mem_cons_of_mem _ hs1, fs1, hfs1, hnone⟩, ?_⟩
              simpa [convert_secondaries_loop, pyGetItem, hip, hport,
                dictSetItem, hkeyhash, bind, Except.bind] using hloop

/-- C9 counterexample: in a list whose later descriptor lacks `port`, an
earlier descriptor carrying a list-valued `ip` makes the dict comprehension
raise an uncaught TypeError while hashing its `(ip, port)` key — the
conversion does not reach `fail_json` and produces no message naming the
missing field. -/
theorem convert_secondaries_unhashable_counterexample :
    convert_secondaries_to_dict (.list
        [.dict [(.str "ip", .list [.int 1]), (.str "port", .int 1)],
         .dict [(.str "ip", .str "2.2.2.2")]])
      = .error (.typeError "unhashable type")
    ∧ pyLookup [(Value.str "ip", Value.str "2.2.2.2")] (.str "port") = none
    ∧ PyErr.typeError "unhashable type"
        ≠ PyErr.failJson ("missing field in secondary definition: "
            ++ pyKeyStr (.str "port")) := by
  refine ⟨?_, by simp [pyLookup, pyEq], by simp⟩
  simp [convert_secondaries_to_dict, pyIter, convert_secondaries_loop,
    pyGetItem, pyLookup, pyEq, dictSetItem, hashable, hashableList,
    bind, Except.bind]

/-- C9 amended: provided the `ip` and `port` values present in each
descriptor are hashable (as real addresses and ports are), a secondaries
list containing a descriptor that lacks an `ip` or a `port` key makes the
keyed conversion — and any `diff_in_secondaries` comparison that reaches
it — fail fast through `module.fail_json` with a message naming the
missing field, instead of skipping or defaulting the record; with an
unhashable present value the comprehension instead raises an uncaught
TypeError while hashing the key. -/
theorem convert_secondaries_missing_key_fails (ss : List Value)
    (hdict : ∀ s ∈ ss, ∃ fs, s = Value.dict fs)
    (hhash : PresentKeysHashable ss)
    (hbad : ∃ s ∈ ss, ∃ fs, s = Value.dict fs ∧
        (pyLookup fs (.str "ip") = none ∨ pyLookup fs (.str "port") = none)) :
    ∃ f : String, (f = "ip" ∨ f = "port")
      ∧ (∃ s ∈ ss, ∃ fs, s = Value.dict fs ∧ pyLookup fs (.str f) = none)
      ∧ convert_secondaries_to_dict (.list ss)
          = .error (.failJson ("missing field in secondary definition: "
              ++ pyKeyStr (.str f)))
      ∧ (∀ ws : List Value, ws.length = ss.length →
          diff_in_secondaries (.list ss) (.list ws)
            = .error (.failJson ("missing field in secondary definition: "
                ++ pyKeyStr (.str f)))) := by
  obtain ⟨f, hforf, hwit, hloop⟩ := convert_loop_missing ss [] hdict hhash hbad
  have hconv : convert_secondaries_to_dict (.list ss)
      = .error (.failJson ("missing field in secondary definition: "
          ++ pyKeyStr (.str f))) := by
    simp [convert_secondaries_to_dict, pyIter, hloop, bind, Except.bind]
  refine ⟨f, hforf, hwit, hconv, ?_⟩
  intro ws hlen
  have hbne : (ws.length != ss.length) = false := by
    simp [bne_iff_ne, hlen]
  simp [diff_in_secondaries, isNull, pyLen, hbne, hconv, bind, Except.bind]

/-- Witness for C9: a single descriptor with a hashable `ip` but no
`port`. -/
theorem convert_secondaries_missing_key_fails_witness :
    ∃ f : String, (f = "ip" ∨ f = "port")
      ∧ (∃ s ∈ [Value.dict [(Value.str "ip", Value.str "1.1.1.1")]],
          ∃ fs, s = Value.dict fs ∧ pyLookup fs (.str f) = none)
      ∧ convert_secondaries_to_dict
          (.list [Value.dict [(Value.str "ip", Value.str "1.1.1.1")]])
          = .error (.failJson ("missing field in secondary definition: "
              ++ pyKeyStr (.str f)))
      ∧ (∀ ws : List Value,
          ws.length = [Value.dict [(Value.str "ip", Value.str "1.1.1.1")]].length →
          diff_in_secondaries
            (.list [Value.dict [(Value.str "ip", Value.str "1.1.1.1")]])
            (.list ws)
            = .error (.failJson ("missing field in secondary definition: "
                ++ pyKeyStr (.str f)))) := by
  apply convert_secondaries_missing_key_fails
  · intro s hs
    simp only [List.mem_singleton] at hs
    subst hs
    exact ⟨_, rfl⟩
  · intro s hs fs hfs
    simp only [List.mem_singleton] at hs
    subst hs
    injection hfs with hfs
    subst hfs
    constructor
    · intro ip hip
      rw [show pyLookup [(Value.str "ip", Value.str "1.1.1.1")] (.str "ip")
          = some (Value.str "1.1.1.1") from by simp [pyLookup, pyEq]] at hip
      injection hip with hip
      subst hip
      rfl
    · intro port hport
      rw [show pyLookup [(Value.str "ip", Value.str "1.1.1.1")] (.str "port")
          = none from by simp [pyLookup, pyEq]] at hport
      cases hport
  · refine ⟨_, List.mem_cons_self _ _, _, rfl, Or.inr ?_⟩
    simp [pyLookup, pyEq]

theorem filter_empty_params_append (a b : List (Value × Value)) :
    filter_empty_params (a ++ b)
      = filter_empty_params a ++ filter_empty_params b := by
  induction a with
  | nil => simp [filter_empty_params]
  | cons q rest ih =>
      obtain ⟨k, v⟩ := q
      cases v with
      | dict sub =>
          by_cases hemp : (filter_empty_params sub).isEmpty = true
          · rw [List.cons_append, filter_cons_dict_empty k sub _ hemp,
              filter_cons_dict_empty k sub _ hemp, ih]
          · rw [List.cons_append, filter_cons_dict_nonempty k sub _ hemp,
              filter_cons_dict_nonempty k sub _ hemp, ih, List.cons_append]
      | null => rw [List.cons_append, filter_cons_null, filter_cons_null, ih]
      | bool x =>
          rw [List.cons_append,
            filter_cons_other k (.bool x) _ (fun _ h => by cases h)
              (by intro h; cases h),
            filter_cons_other k (.bool x) _ (fun _ h => by cases h)
              (by intro h; cases h), ih, List.cons_append]
      | int x =>
          rw [List.cons_append,
            filter_cons_other k (.int x) _ (fun _ h => by cases h)
              (by intro h; cases h),
            filter_cons_other k (.int x) _ (fun _ h => by cases h)
              (by intro h; cases h), ih, List.cons_append]
      | str x =>
          rw [List.cons_append,
            filter_cons_other k (.str x) _ (fun _ h => by cases h)
              (by intro h; cases h),
            filter_cons_other k (.str x) _ (fun _ h => by cases h)
              (by intro h; cases h), ih, List.cons_append]
      | list x =>
          rw [List.cons_append,
            filter_cons_other k (.list x) _ (fun _ h => by cases h)
              (by intro h; cases h),
            filter_cons_other k (.list x) _ (fun _ h => by cases h)
              (by intro h; cases h), ih, List.cons_append]
      | tuple x =>
          rw [List.cons_append,
            filter_cons_other k (.tuple x) _ (fun _ h => by cases h)
              (by intro h; cases h),
            filter_cons_other k (.tuple x) _ (fun _ h => by cases h)
              (by intro h; cases h), ih, List.cons_append]

theorem filter_empty_params_nil_iff_aux (n : Nat) : ∀ d,
    sizeOf d ≤ n → (filter_empty_params d = [] ↔ allEmptyB d = true) := by
  induction n with
  | zero =>
      intro d hle
      cases d with
      | nil => simp [filter_empty_params, allEmptyB]
      | cons q rest => simp [List.cons.sizeOf_spec] at hle
  | succ n ih =>
      intro d hle
      cases d with
      | nil => simp [filter_empty_params, allEmptyB]
      | cons q rest =>
          obtain ⟨k, v⟩ := q
          have hsizeRest : sizeOf rest ≤ n := by
            simp only [List.cons.sizeOf_spec, Prod.mk.sizeOf_spec] at hle
            omega
          have ihrest := ih rest hsizeRest
          cases v with
          | dict sub =>
              have hsizeSub : sizeOf sub ≤ n := by
                simp only [List.cons.sizeOf_spec, Prod.mk.sizeOf_spec,
                  Value.dict.sizeOf_spec] at hle
                omega
              have ihsub := ih sub hsizeSub
              by_cases hemp : (filter_empty_params sub).isEmpty = true
              · rw [filter_cons_dict_empty k sub rest hemp]
                have hsub : allEmptyB sub = true :=
                  ihsub.mp (List.isEmpty_iff.mp hemp)
                simp [allEmptyB, hsub, ihrest]
              · rw [filter_cons_dict_nonempty k sub rest hemp]
                have hsub : allEmptyB sub = false := by
                  cases hcase : allEmptyB sub
                  · rfl
                  · exact absurd (List.isEmpty_iff.mpr (ihsub.mpr hcase)) hemp
                simp [allEmptyB, hsub]
          | null =>
              rw [filter_cons_null]
              simp [allEmptyB, ihrest]
          | bool x =>
              rw [filter_cons_other k (.bool x) rest (fun _ h => by cases h)
                (by intro h; cases h)]
              simp [allEmptyB]
          | int x =>
              rw [filter_cons_other k (.int x) rest (fun _ h => by cases h)
                (by intro h; cases h)]
              simp [allEmptyB]
          | str x =>
              rw [filter_cons_other k (.str x) rest (fun _ h => by cases h)
                (by intro h; cases h)]
              simp [allEmptyB]
          | list x =>
              rw [filter_cons_other k (.list x) rest (fun _ h => by cases h)
                (by intro h; cases h)]
              simp [allEmptyB]
          | tuple x =>
              rw [filter_cons_other k (.tuple x) rest (fun _ h => by cases h)
                (by intro h; cases h)]
              simp [allEmptyB]

/-- Function `filter_empty_params` returns the empty dict exactly on recursively
empty input. -/
theorem filter_empty_params_nil_iff (d : List (Value × Value)) :
    filter_empty_params d = [] ↔ allEmptyB d = true :=
  filter_empty_params_nil_iff_aux (sizeOf d) d le_rfl

/-- C10: a nested dictionary parameter all of whose recursively filtered
sub-values are null (or which is empty) is removed entirely by
`sanitize_params`: the sanitized output is as if the parameter were never
given, so an intentionally empty nested object cannot be expressed. -/
theorem sanitize_params_drops_empty_nested
    (a b : List (Value × Value)) (k : Value) (sub : List (Value × Value))
    (h : allEmptyB sub = true) :
    filter_empty_params sub = []
    ∧ filter_empty_params (a ++ (k, .dict sub) :: b)
        = filter_empty_params (a ++ b)
    ∧ sanitize_params (a ++ (k, .dict sub) :: b) = sanitize_params (a ++ b) := by
  have hsub : filter_empty_params sub = [] :=
    (filter_empty_params_nil_iff sub).mpr h
  have hfilter : filter_empty_params (a ++ (k, .dict sub) :: b)
      = filter_empty_params (a ++ b) := by
    rw [filter_empty_params_append, filter_empty_params_append,
      filter_cons_dict_empty k sub b (by simp [hsub])]
  exact ⟨hsub, hfilter, by rw [sanitize_params, hfilter, sanitize_params]⟩

/-- Witness for C10: a `tsig` sub-object holding only nulls and an empty
nested dict disappears from the sanitized parameters. -/
theorem sanitize_params_drops_empty_nested_witness :
    allEmptyB [(Value.str "enabled", Value.null),
        (Value.str "inner", Value.dict [])] = true
    ∧ sanitize_params [(Value.str "ttl", Value.int 1),
        (Value.str "tsig", Value.dict [(Value.str "enabled", Value.null),
          (Value.str "inner", Value.dict [])])]
      = sanitize_params [(Value.str "ttl", Value.int 1)] := by
  have h : allEmptyB [(Value.str "enabled", Value.null),
      (Value.str "inner", Value.dict [])] = true := by
    simp [allEmptyB]
  have h2 := sanitize_params_drops_empty_nested
    [(Value.str "ttl", Value.int 1)] [] (Value.str "tsig")
    [(Value.str "enabled", Value.null), (Value.str "inner", Value.dict [])] h
  exact ⟨h, h2.2.2⟩

theorem filter_no_null_aux (n : Nat) : ∀ d, sizeOf d ≤ n →
    noNullEntries (filter_empty_params d) = true := by
  induction n with
  | zero =>
      intro d hle
      cases d with
      | nil => simp [filter_empty_params, noNullEntries]
      | cons q rest => simp [List.cons.sizeOf_spec] at hle
  | succ n ih =>
      intro d hle
      cases d with
      | nil => simp [filter_empty_params, noNullEntries]
      | cons q rest =>
          obtain ⟨k, v⟩ := q
          have hsizeRest : sizeOf rest ≤ n := by
            simp only [List.cons.sizeOf_spec, Prod.mk.sizeOf_spec] at hle
            omega
          have ihrest := ih rest hsizeRest
          cases v with
          | dict sub =>
              have hsizeSub : sizeOf sub ≤ n := by
                simp only [List.cons.sizeOf_spec, Prod.mk.sizeOf_spec,
                  Value.dict.sizeOf_spec] at hle
                omega
              by_cases hemp : (filter_empty_params sub).isEmpty = true
              · rw [filter_cons_dict_empty k sub rest hemp]
                exact ihrest
              · rw [filter_cons_dict_nonempty k sub rest hemp]
                simp [noNullEntries, ihrest, ih sub hsizeSub]
          | null =>
              rw [filter_cons_null]
              exact ihrest
          | bool x =>
              rw [filter_cons_other k (.bool x) rest (fun _ h => by cases h)
                (by intro h; cases h)]
              simp [noNullEntries, ihrest]
          | int x =>
              rw [filter_cons_other k (.int x) rest (fun _ h => by cases h)
                (by intro h; cases h)]
              simp [noNullEntries, ihrest]
          | str x =>
              rw [filter_cons_other k (.str x) rest (fun _ h => by cases h)
                (by intro h; cases h)]
              simp [noNullEntries, ihrest]
          | list x =>
              rw [filter_cons_other k (.list x) rest (fun _ h => by cases h)
                (by intro h; cases h)]
              simp [noNullEntries, ihrest]
          | tuple x =>
              rw [filter_cons_other k (.tuple x) rest (fun _ h => by cases h)
                (by intro h; cases h)]
              simp [noNullEntries, ihrest]

mutual

theorem remove_ids_no_id (v : Value) : noIdKeys (remove_ids v) = true := by
  cases v with
  | dict fs => simpa [remove_ids, noIdKeys] using remove_ids_fields_no_id fs
  | list xs => simpa [remove_ids, noIdKeys] using remove_ids_list_no_id xs
  | null => simp [remove_ids, noIdKeys]
  | bool b => simp [remove_ids, noIdKeys]
  | int n => simp [remove_ids, noIdKeys]
  | str s => simp [remove_ids, noIdKeys]
  | tuple xs => simp [remove_ids, noIdKeys]

theorem remove_ids_fields_no_id (fs : List (Value × Value)) :
    noIdKeysFields (remove_ids_fields fs) = true := by
  match fs with
  | [] => simp [remove_ids_fields, noIdKeysFields]
  | (k, v) :: rest =>
      cases hk : pyEq k (.str "id") with
      | true =>
          simpa [remove_ids_fields, hk] using remove_ids_fields_no_id rest
      | false =>
          simp [remove_ids_fields, hk, noIdKeysFields, remove_ids_no_id v,
            remove_ids_fields_no_id rest]

theorem remove_ids_list_no_id (xs : List Value) :
    noIdKeysList (remove_ids_list xs) = true := by
  match xs with
  | [] => simp [remove_ids_list, noIdKeysList]
  | x :: rest =>
      simp [remove_ids_list, noIdKeysList, remove_ids_no_id x,
        remove_ids_list_no_id rest]

end

theorem pyLookup_eq_none (l : List (Value × Value)) (k : Value)
    (h : ∀ p ∈ l, pyEq p.1 k = false) : pyLookup l k = none := by
  induction l with
  | nil => rfl
  | cons q rest ih =>
      obtain ⟨k2, v2⟩ := q
      have hk2 : pyEq k2 k = false := h (k2, v2) (List.mem_cons_self _ _)
      simp only [pyLookup, hk2, Bool.false_eq_true, if_false]
      exact ih (fun p hp => h p (List.mem_cons_of_mem _ hp))

/-- C7 counterexample: a strip-set key (`name`) nested one level down
survives `sanitize_params` untouched, refuting removal at every depth. -/
theorem sanitize_params_nested_strip_counterexample :
    sanitize_params
        [(Value.str "secondary", Value.dict [(Value.str "name", Value.str "x")])]
      = [(Value.str "secondary", Value.dict [(Value.str "name", Value.str "x")])]
    ∧ "name" ∈ SANITIZED_PARAMS := by
  constructor
  · simp [sanitize_params, filter_empty_params, SANITIZED_PARAMS, pyEq]
  · simp [SANITIZED_PARAMS]

/-- C7 amended: the zone/tsig `sanitize_params` pops its strip set
(`SANITIZED_PARAMS`) from the top level only — a strip-set key at a deeper
level survives — while null-valued entries (and empty-after-filter
sub-dicts) are removed at every dict level; the record module function
`remove_ids` does strip its `id` key at every dict/list nesting level. -/
theorem sanitize_strip_amended (params : List (Value × Value)) (s : String)
    (hs : s ∈ SANITIZED_PARAMS) (v : Value) :
    pyLookup (sanitize_params params) (.str s) = none
    ∧ noNullEntries (filter_empty_params params) = true
    ∧ noIdKeys (remove_ids v) = true := by
  refine ⟨?_, filter_no_null_aux (sizeOf params) params le_rfl,
    remove_ids_no_id v⟩
  apply pyLookup_eq_none
  intro p hp
  have hpred := (List.mem_filter.mp hp).2
  have hany : SANITIZED_PARAMS.any (fun s2 => pyEq p.1 (.str s2)) = false := by
    cases hcase : SANITIZED_PARAMS.any (fun s2 => pyEq p.1 (.str s2)) with
    | false => rfl
    | true => rw [hcase] at hpred; cases hpred
  cases hc : pyEq p.1 (.str s) with
  | false => rfl
  | true =>
      exfalso
      have : SANITIZED_PARAMS.any (fun s2 => pyEq p.1 (.str s2)) = true :=
        List.any_eq_true.mpr ⟨s, hs, hc⟩
      rw [this] at hany
      cases hany

/-- Witness for the amended claim of C7. -/
theorem sanitize_strip_amended_witness :
    "state" ∈ SANITIZED_PARAMS
    ∧ pyLookup (sanitize_params [(Value.str "state", Value.str "present"),
        (Value.str "ttl", Value.int 1)]) (Value.str "state") = none
    ∧ noIdKeys (remove_ids (Value.dict [(Value.str "id", Value.int 7),
        (Value.str "answers", Value.list
          [Value.dict [(Value.str "id", Value.int 8)]])])) = true := by
  have hmem : "state" ∈ SANITIZED_PARAMS := by simp [SANITIZED_PARAMS]
  have h := sanitize_strip_amended
    [(Value.str "state", Value.str "present"), (Value.str "ttl", Value.int 1)]
    "state" hmem
    (Value.dict [(Value.str "id", Value.int 7),
      (Value.str "answers", Value.list
        [Value.dict [(Value.str "id", Value.int 8)]])])
  exact ⟨hmem, h.1, h.2.2⟩

end NS1Spec
